import Mathlib

/-!
Verification of the flecs snapshot/restore subsystem (src/addons/snapshot.c).

The snapshot code itself is translated definition by definition from the C
source.  The collaborators it calls (the sparse entity index, the table
store, table data primitives, and the notification dispatcher) are not part
of the visible source; following the specification they are modelled as
explicit functional state:

  * an entity identifier is a pair of a numeric id and a generation counter;
  * the entity index is an association list from entity id to a generation
    and a location record (table id, row);
  * the table store is a list indexed by table id; a `none` slot is a hole
    (a deleted table); ids are assigned once and monotonically per store
    lifetime (spec section 3), so creation appends at the end and deletion
    leaves a hole;
  * table data is columnar: an entity array, a record-pointer array
    (modelled by the pointed-to entity id) and one value list per storage
    column;
  * side effects (update notifications, removal notifications, component
    destructor invocations) are collected in an explicit event list.
-/

namespace Flecs

/-- Component values stored in table columns; modelled as opaque numbers. -/
abbrev Val := Nat

/-- An entity identifier: a unique numeric id plus a generation counter.
    Two identifiers with the same id but different generations denote
    different logical entities. -/
structure EntityId where
  id : Nat
  gen : Nat
deriving DecidableEq, Repr

/-- A location record `ecs_record_t`: the owning table (by id, `none` when
    the entity has no current table) and the row within it. -/
structure Record where
  table : Option Nat
  row : Nat
deriving DecidableEq, Repr

/-- One entry of the entity index: the stored generation and location for a
    given entity id. -/
structure IndexEntry where
  id : Nat
  gen : Nat
  record : Record
deriving DecidableEq, Repr

/-- The sparse entity index, modelled as an association list keyed by the
    numeric entity id. -/
abbrev EntityIndex := List IndexEntry

/-- Per-column lifecycle information (`ecs_type_info_t`): the component id
    the column stores and which lifecycle hooks are registered. -/
structure ColumnInfo where
  comp : Nat
  hasCtor : Bool
  hasCopy : Bool
  hasDtor : Bool
deriving DecidableEq, Repr

/-- Columnar table data (`ecs_data_t`): the entity-id array, the
    record-pointer array (modelled by the entity id each record belongs to)
    and one value list per storage column, all indexed by row. -/
structure Data where
  entities : List EntityId
  record_ptrs : List Nat
  columns : List (List Val)
deriving DecidableEq, Repr

/-- A table (`ecs_table_t`): its immutable id, the internal/builtin flag
    (`EcsTableHasBuiltins`), its type (ordered component-id list), the
    per-storage-column lifecycle info and its owned storage. -/
structure Table where
  id : Nat
  builtin : Bool
  type : List Nat
  typeInfo : List ColumnInfo
  storage : Data
deriving DecidableEq, Repr

/-- Observable side effects of restore: update (on-set) notifications,
    removal (on-remove) notifications and component destructor runs. -/
inductive Event where
  | onSet (table : Nat) (row : Nat) (count : Nat)
  | onRemove (table : Nat) (row : Nat) (count : Nat)
  | dtor (comp : Nat) (value : Val)
deriving DecidableEq, Repr

/-- Whether an event is a removal notification. -/
def Event.isRemove : Event → Bool
  | .onRemove _ _ _ => true
  | _ => false

/-- Whether an event is an update (on-set) notification. -/
def Event.isSet : Event → Bool
  | .onSet _ _ _ => true
  | _ => false

/-- The world state visible to the snapshot subsystem: the entity index, the
    id-indexed table store, the last issued entity id (`stats.last_id`) and
    the component registry used when (re)creating tables. -/
structure World where
  index : EntityIndex
  store : List (Option Table)
  lastId : Nat
  registry : List (Nat × ColumnInfo)
deriving DecidableEq, Repr

/-- Look a table up by id in the store (`flecs_sparse_get` on
    `world->store.tables`); `none` for a hole or an out-of-range id. -/
def storeGet (w : World) (i : Nat) : Option Table :=
  (w.store.get? i).join

/-- Replace the slot of table id `i` in the store. -/
def storeSet (w : World) (i : Nat) (t : Option Table) : World :=
  { w with store := w.store.set i t }

/-- Modelled from the spec: `flecs_sparse_last_id` on the table store is the
    highest table id observed; ids are assigned once and monotonically
    (spec section 3), so it is the length of the id-indexed store minus one. -/
def flecs_sparse_last_id (store : List (Option Table)) : Nat :=
  store.length - 1

/-- Find an entry of the entity index by entity id. -/
def eisFind (idx : EntityIndex) (i : Nat) : Option IndexEntry :=
  idx.find? (fun ent => ent.id = i)

/-- Modelled from the spec: `ecs_eis_get` returns the location record for an
    entity, and `none` when the id is unknown or the stored generation does
    not match the identifier's generation (the id was reused or deleted). -/
def ecs_eis_get (w : World) (e : EntityId) : Option Record :=
  match eisFind w.index e.id with
  | some ent => if ent.gen = e.gen then some ent.record else none
  | none => none

/-- Modelled from the spec: `ecs_eis_set_generation` stores the identifier's
    generation for its id in the entity index, creating an empty entry when
    the id is not present. -/
def ecs_eis_set_generation (w : World) (e : EntityId) : World :=
  if (eisFind w.index e.id).isSome then
    { w with index := w.index.map (fun ent =>
        if ent.id = e.id then { ent with gen := e.gen } else ent) }
  else
    { w with index := w.index ++ [⟨e.id, e.gen, ⟨none, 0⟩⟩] }

/-- Modelled from the spec: point the index record of entity `e` at a new
    location, creating the entry when absent. -/
def eisSetRecord (idx : EntityIndex) (e : EntityId) (r : Record) : EntityIndex :=
  if (eisFind idx e.id).isSome then
    idx.map (fun ent => if ent.id = e.id then { ent with record := r } else ent)
  else
    idx ++ [⟨e.id, e.gen, r⟩]

/-- Modelled from the spec: update only the row of the record stored for the
    entity id `i` (used when a row move leaves the table unchanged). -/
def eisSetRow (idx : EntityIndex) (i : Nat) (row : Nat) : EntityIndex :=
  idx.map (fun ent =>
    if ent.id = i then { ent with record := { ent.record with row := row } } else ent)

/-- Destructor events produced by destructing every value of columnar data,
    for the columns whose component has a destructor registered. -/
def dtorEventsData (tis : List ColumnInfo) (cols : List (List Val)) : List Event :=
  ((tis.zip cols).map (fun p =>
    if p.1.hasDtor then p.2.map (Event.dtor p.1.comp) else [])).flatten

/-- Destructor events for the values of one row of columnar data. -/
def rowDtorEvents (tis : List ColumnInfo) (cols : List (List Val)) (row : Nat) : List Event :=
  ((tis.zip cols).map (fun p =>
    if p.1.hasDtor then
      match p.2.get? row with
      | some v => [Event.dtor p.1.comp v]
      | none => []
    else [])).flatten

/-- Table data with no rows and one empty list per storage column. -/
def emptyData (n : Nat) : Data :=
  ⟨[], [], List.replicate n []⟩

/-- Modelled from the spec: `flecs_table_clear_data` destructs the contents
    of the table's data through the lifecycle hooks and releases the
    vectors; it dispatches no notification. -/
def flecs_table_clear_data (w : World) (tid : Nat) : World × List Event :=
  match storeGet w tid with
  | some tb =>
      (storeSet w tid (some { tb with storage := ⟨[], [], []⟩ }),
       dtorEventsData tb.typeInfo tb.storage.columns)
  | none => (w, [])

/-- Modelled from the spec: `flecs_table_init_data` re-initializes a table's
    storage to empty, with one column per storage column. -/
def flecs_table_init_data (w : World) (tid : Nat) : World :=
  match storeGet w tid with
  | some tb => storeSet w tid (some { tb with storage := emptyData tb.typeInfo.length })
  | none => w

/-- Modelled from the spec: `flecs_table_replace_data` transfers ownership of
    `d` into the table, discarding (destructing, without notification) the
    data the table previously held. -/
def flecs_table_replace_data (w : World) (tid : Nat) (d : Data) : World × List Event :=
  match storeGet w tid with
  | some tb =>
      (storeSet w tid (some { tb with storage := d }),
       dtorEventsData tb.typeInfo tb.storage.columns)
  | none => (w, [])

/-- Modelled from the spec: `flecs_delete_table` dispatches a removal
    notification for the remaining rows (if any), destructs the remaining
    contents, clears the index records of the entities it still holds, and
    removes the table from the store (leaving a hole at its id). -/
def flecs_delete_table (w : World) (tid : Nat) : World × List Event :=
  match storeGet w tid with
  | some tb =>
      let n := tb.storage.entities.length
      let ev := (if n ≠ 0 then [Event.onRemove tid 0 n] else [])
        ++ dtorEventsData tb.typeInfo tb.storage.columns
      let idx := tb.storage.entities.foldl (fun ix e =>
        ix.map (fun ent =>
          if ent.id = e.id then { ent with gen := ent.gen + 1, record := ⟨none, 0⟩ }
          else ent)) w.index
      ({ w with index := idx, store := w.store.set tid none }, ev)
  | none => (w, [])

/-- Storage column layout for a type, derived from the component registry:
    components registered with column info carry data, the rest are tags. -/
def typeInfoOf (w : World) (ty : List Nat) : List ColumnInfo :=
  ty.filterMap (fun c => (w.registry.find? (fun p => p.1 = c)).map (fun p => p.2))

/-- First live table id whose type equals `ty`, scanning slots in id order. -/
def findTableIdx (store : List (Option Table)) (ty : List Nat) (i : Nat) : Option Nat :=
  match store with
  | [] => none
  | t :: rest =>
      match t with
      | some tb => if tb.type = ty then some i else findTableIdx rest ty (i + 1)
      | none => findTableIdx rest ty (i + 1)

/-- Modelled from the spec: `flecs_table_find_or_create` returns the live
    table with the given type when one exists, and otherwise creates a new
    empty table under a fresh (next monotonic) table id. -/
def flecs_table_find_or_create (w : World) (ty : List Nat) : World × Nat :=
  match findTableIdx w.store ty 0 with
  | some i => (w, i)
  | none =>
      let tis := typeInfoOf w ty
      ({ w with store := w.store ++
          [some ⟨w.store.length, false, ty, tis, emptyData tis.length⟩] },
       w.store.length)

/-- Move the last element of a list into position `row` and drop the last
    position (swap-removal of row `row`). -/
def removeSwap (l : List Val) (row : Nat) : List Val :=
  match l.getLast? with
  | some x => (l.set row x).dropLast
  | none => l

/-- Swap-removal for entity-id lists. -/
def removeSwapE (l : List EntityId) (row : Nat) : List EntityId :=
  match l.getLast? with
  | some x => (l.set row x).dropLast
  | none => l

/-- Swap-removal for record-pointer lists. -/
def removeSwapN (l : List Nat) (row : Nat) : List Nat :=
  match l.getLast? with
  | some x => (l.set row x).dropLast
  | none => l

/-- Modelled from the spec: `flecs_table_delete` swap-removes row `row` from
    the table's data (the last row moves into its place and the moved
    entity's index record is re-pointed), destructing the removed values
    when `destruct` is set.  It dispatches no removal notification. -/
def flecs_table_delete (w : World) (tid : Nat) (row : Nat) (destruct : Bool) :
    World × List Event :=
  match storeGet w tid with
  | some tb =>
      let d := tb.storage
      let n := d.entities.length
      if row < n then
        let ev := if destruct then rowDtorEvents tb.typeInfo d.columns row else []
        let d' : Data :=
          ⟨removeSwapE d.entities row, removeSwapN d.record_ptrs row,
           d.columns.map (fun c => removeSwap c row)⟩
        let w1 := storeSet w tid (some { tb with storage := d' })
        let w2 :=
          if row ≠ n - 1 then
            match d.record_ptrs.get? (n - 1) with
            | some movedId => { w1 with index := eisSetRow w1.index movedId row }
            | none => w1
          else w1
        (w2, ev)
      else (w, [])
  | none => (w, [])

/-- Modelled from the spec: `flecs_table_merge` of a table with itself and
    source data `d` appends the captured rows to the table's storage and
    re-points each appended entity's index record at the destination
    table and row. -/
def flecs_table_merge (w : World) (tid : Nat) (d : Data) : World :=
  match storeGet w tid with
  | some tb =>
      let old := tb.storage
      let oldCount := old.entities.length
      let storage' : Data :=
        ⟨old.entities ++ d.entities, old.record_ptrs ++ d.record_ptrs,
         List.zipWith (fun a b => a ++ b) old.columns d.columns⟩
      let w1 := storeSet w tid (some { tb with storage := storage' })
      { w1 with index := d.entities.enum.foldl (fun ix p =>
          eisSetRecord ix p.2 ⟨some tid, oldCount + p.1⟩) w1.index }
  | none => w

/-- Number of rows of a live table (`ecs_table_count`); a dangling table
    reference reads as zero. -/
def tableCount (w : World) (tid : Nat) : Nat :=
  match storeGet w tid with
  | some tb => tb.storage.entities.length
  | none => 0

/-- A per-table capture record (`ecs_table_leaf_t`): the captured table
    reference (modelled by the table id the pointer designates), the cloned
    type and the cloned data (`none` when absent). -/
structure Leaf where
  table : Option Nat
  type : List Nat
  data : Option Data
deriving DecidableEq, Repr

/-- The zero-initialized leaf: a hole of the snapshot's leaf array. -/
def Leaf.zero : Leaf := ⟨none, [], none⟩

/-- A snapshot (`ecs_snapshot_t`): the cloned entity index (present for full
    captures only), the id-indexed leaf array and the recorded last issued
    entity id. -/
structure Snapshot where
  entity_index : Option EntityIndex
  tables : List Leaf
  last_id : Nat
deriving DecidableEq, Repr

/-- Translation of `duplicate_data` (snapshot.c:23): `none` when the table
    holds no entities; otherwise an independent copy of the data.  The
    entity and record-pointer arrays are copied verbatim; each of the
    table's `storage_count` columns is copied with the component's
    copy constructor when one is registered (constructing destinations
    first) and bytewise otherwise — both produce the same values. -/
def duplicate_data (table : Table) (main_data : Data) : Option Data :=
  if table.storage.entities.length = 0 then
    none
  else
    some ⟨main_data.entities, main_data.record_ptrs,
      (table.typeInfo.zip main_data.columns).map (fun p =>
        if p.1.hasCopy then p.2 else p.2)⟩

/-- Translation of `snapshot_table` (snapshot.c:76): skip tables flagged
    internal; otherwise populate the leaf at the table's id with the table
    reference, the cloned type and the cloned data.  (The source asserts
    that the leaf slot exists; `List.set` out of range is a no-op.) -/
def snapshot_table (snapshot : Snapshot) (table : Table) : Snapshot :=
  if table.builtin then snapshot
  else
    { snapshot with
      tables :=
        snapshot.tables.set table.id
          (⟨some table.id, table.type, duplicate_data table table.storage⟩ : Leaf) }

/-- The capture loop of `snapshot_create` (snapshot.c:128): visit the given
    table ids and capture each.  A selection iterator is modelled as the
    list of table ids it yields; an iterator yields live tables, so a hole
    lookup is skipped (the source dereferences the table it is handed). -/
def captureFold (world : World) (ts : List Nat) (s : Snapshot) : Snapshot :=
  ts.foldl (fun s t =>
    match storeGet world t with
    | some tb => snapshot_table s tb
    | none => s) s

/-- Translation of the body of `snapshot_create` (snapshot.c:94) continued:
    clone the entity index when no iterator is supplied, allocate the
    zero-initialized leaf array sized by the highest observed table id plus
    one, then capture either the iterated tables or every slot in id
    order. -/
def snapshot_create (world : World) (entity_index : EntityIndex)
    (iter : Option (List Nat)) : Snapshot :=
  let ei : Option EntityIndex := if iter.isNone then some entity_index else none
  let table_count := flecs_sparse_last_id world.store + 1
  let s0 : Snapshot := ⟨ei, List.replicate table_count Leaf.zero, 0⟩
  match iter with
  | some ids => captureFold world ids s0
  | none => captureFold world (List.range table_count) s0

/-- Translation of `ecs_snapshot_take` (snapshot.c:146): full capture; the
    world's last issued entity id is recorded into the snapshot. -/
def ecs_snapshot_take (world : World) : Snapshot :=
  let result := snapshot_create world world.index none
  { result with last_id := world.lastId }

/-- Translation of `ecs_snapshot_take_w_iter` (snapshot.c:160): filtered
    capture over the tables yielded by the iterator; the world's last
    issued entity id is recorded into the snapshot. -/
def ecs_snapshot_take_w_iter (world : World) (iter : List Nat) : Snapshot :=
  let result := snapshot_create world world.index (some iter)
  { result with last_id := world.lastId }

/-- The leaf the restore diff considers at table id `i` (snapshot.c:199):
    present only when `i` is within the leaf array and the leaf has a table
    reference. -/
def leafAt (leafs : List Leaf) (i : Nat) : Option Leaf :=
  match leafs.get? i with
  | some l => if l.table.isSome then some l else none
  | none => none

/-- One iteration of the diff loop of `restore_unfiltered` (snapshot.c:191):
    classify table id `i` into the four diff cases.  `none` models the
    fatal `ECS_INTERNAL_ERROR` assertion in the both-present case (the
    leaf's table reference must be the live table at this id). -/
def restore_table_step (w : World) (leafs : List Leaf) (i : Nat) :
    Option (World × List Event) :=
  match storeGet w i with
  | some world_table =>
      if world_table.builtin then some (w, [])
      else
        match leafAt leafs i with
        | some l =>
            if l.table = some world_table.id then
              match l.data with
              | some d => some (flecs_table_replace_data w world_table.id d)
              | none =>
                  let (w1, ev) := flecs_table_clear_data w world_table.id
                  some (flecs_table_init_data w1 world_table.id, ev)
            else none
        | none =>
            let (w1, ev1) := flecs_table_clear_data w world_table.id
            let (w2, ev2) := flecs_delete_table w1 world_table.id
            some (w2, ev1 ++ ev2)
  | none =>
      match leafAt leafs i with
      | some l =>
          let (w1, tid) := flecs_table_find_or_create w l.type
          match l.data with
          | some d => some (flecs_table_replace_data w1 tid d)
          | none => some (w1, [])
      | none => some (w, [])

/-- The diff loop of `restore_unfiltered`, processing the listed table ids
    in order and aborting as soon as one step aborts. -/
def restoreLoopGo (leafs : List Leaf) (idxs : List Nat) (w : World)
    (ev : List Event) : Option (World × List Event) :=
  match idxs with
  | [] => some (w, ev)
  | i :: rest =>
      match restore_table_step w leafs i with
      | some (w', ev') => restoreLoopGo leafs rest w' (ev ++ ev')
      | none => none

/-- The final pass of `restore_unfiltered` (snapshot.c:257): after every
    table has reached its final state, issue an update notification over
    the full row range of every live, non-internal, non-empty table. -/
def onSetPass (w : World) : List Event :=
  ((List.range w.store.length).map (fun i =>
    match storeGet w i with
    | some tb =>
        if tb.builtin then []
        else if tb.storage.entities.length ≠ 0 then
          [Event.onSet tb.id 0 tb.storage.entities.length]
        else []
    | none => [])).flatten

/-- Translation of `restore_unfiltered` (snapshot.c:176): replace the entity
    index wholesale with the snapshot's clone, restore the last issued id,
    diff table ids 0 through `flecs_sparse_last_id` of the store, then run
    the deferred on-set pass.  `none` models an internal-error abort. -/
def restore_unfiltered (w : World) (ei : EntityIndex) (s : Snapshot) :
    Option (World × List Event) :=
  let w0 : World := { w with index := ei, lastId := s.last_id }
  let count := flecs_sparse_last_id w0.store
  match restoreLoopGo s.tables (List.range (count + 1)) w0 [] with
  | some (w1, ev) => some (w1, ev ++ onSetPass w1)
  | none => none

/-- The world state the diff loop of `restore_unfiltered` starts from:
    the entity index replaced by the snapshot clone and the last issued id
    restored. -/
def restoreStart (w : World) (ei : EntityIndex) (last : Nat) : World :=
  { w with index := ei, lastId := last }

/-- The per-entity pass of `restore_filtered` (snapshot.c:304): an entity
    with a valid current location is deleted from its table's row (no
    removal notification); otherwise its stored generation is aligned with
    the captured identifier. -/
def restore_filtered_entity (w : World) (e : EntityId) : World × List Event :=
  match ecs_eis_get w e with
  | some r =>
      match r.table with
      | some tid => flecs_table_delete w tid r.row true
      | none => (ecs_eis_set_generation w e, [])
  | none => (ecs_eis_set_generation w e, [])

/-- The entity-deletion pass of one leaf of `restore_filtered`
    (snapshot.c:299): process every entity recorded in the captured data in
    order, threading the world and collecting the events. -/
def restore_filtered_delete_pass : World → List EntityId → World × List Event
  | w, [] => (w, [])
  | w, e :: es =>
      let p := restore_filtered_entity w e
      let q := restore_filtered_delete_pass p.1 es
      (q.1, p.2 ++ q.2)

/-- Processing of one leaf by `restore_filtered` (snapshot.c:285): skip
    leaves without a table reference or without data; otherwise run the
    entity-deletion pass, record the live table's row count, merge the
    captured data into the live table and issue one on-set notification
    over the appended row range when it is non-empty. -/
def restore_filtered_leaf (w : World) (l : Leaf) : World × List Event :=
  match l.table with
  | none => (w, [])
  | some tid =>
      match l.data with
      | none => (w, [])
      | some d =>
          let (w1, ev1) := restore_filtered_delete_pass w d.entities
          let old_count := tableCount w1 tid
          let new_count := d.entities.length
          let w2 := flecs_table_merge w1 tid d
          let ev2 := if new_count ≠ 0 then [Event.onSet tid old_count new_count] else []
          (w2, ev1 ++ ev2)

/-- Translation of `restore_filtered` (snapshot.c:276): process every leaf
    in leaf order. -/
def restore_filtered (w : World) (s : Snapshot) : World × List Event :=
  s.tables.foldl (fun acc l =>
    let (w', ev') := restore_filtered_leaf acc.1 l
    (w', acc.2 ++ ev')) (w, [])

/-- Translation of `ecs_snapshot_restore` (snapshot.c:335): a snapshot with
    an entity-index clone restores unfiltered, otherwise filtered; the
    snapshot is consumed. -/
def ecs_snapshot_restore (w : World) (s : Snapshot) : Option (World × List Event) :=
  match s.entity_index with
  | some ei => restore_unfiltered w ei s
  | none => some (restore_filtered w s)

/-- What `ecs_snapshot_next` hands to the caller for one yielded leaf: the
    table reference, the reported row count (`it->count`) and the entity
    slice (`it->entities`, null when the leaf captured no data). -/
structure SnapYield where
  table : Nat
  count : Nat
  entities : Option (List EntityId)
deriving DecidableEq, Repr

/-- Iterator state of `ecs_snapshot_iter_t`: the leaf array and the cursor. -/
structure SnapIter where
  tables : List Leaf
  index : Nat
deriving DecidableEq, Repr

/-- The scan loop of `ecs_snapshot_next` (snapshot.c:378), walking the leaf
    suffix that starts at cursor position `i`: find the first leaf with a
    table reference and yield it, reporting the referenced table's live row
    count and the captured entity slice; report exhaustion otherwise. -/
def snapshotScanGo (w : World) : List Leaf → Nat → Option (Nat × SnapYield)
  | [], _ => none
  | l :: rest, i =>
      match l.table with
      | some t => some (i + 1, ⟨t, tableCount w t, l.data.map Data.entities⟩)
      | none => snapshotScanGo w rest (i + 1)

/-- The scan of `ecs_snapshot_next` from cursor `i` over the whole leaf
    array. -/
def snapshotScan (w : World) (tables : List Leaf) (i : Nat) :
    Option (Nat × SnapYield) :=
  snapshotScanGo w (tables.drop i) i

/-- Translation of `ecs_snapshot_next` (snapshot.c:370): `none` when the
    iterator is exhausted, otherwise the advanced iterator and the yield. -/
def ecs_snapshot_next (w : World) (it : SnapIter) : Option (SnapIter × SnapYield) :=
  (snapshotScan w it.tables it.index).map (fun p => (⟨it.tables, p.1⟩, p.2))

/-- Auxiliary: drain the iterator by repeated `ecs_snapshot_next`, with
    explicit fuel. -/
def snapshotDrainAux (w : World) (tables : List Leaf) :
    Nat → Nat → List SnapYield
  | 0, _ => []
  | fuel + 1, i =>
      match ecs_snapshot_next w ⟨tables, i⟩ with
      | some (it', y) => y :: snapshotDrainAux w tables fuel it'.index
      | none => []

/-- The full yield sequence of snapshot iteration from the given cursor. -/
def snapshotDrain (w : World) (it : SnapIter) : List SnapYield :=
  snapshotDrainAux w it.tables (it.tables.length - it.index) it.index

/-- Modelled from the spec: the world mutations a caller may perform between
    capture and restore — creation and deletion of tables and entities, and
    in-place component writes. -/
inductive Op where
  | newTable (ty : List Nat)
  | deleteTable (tid : Nat)
  | newEntity (tid : Nat) (vals : List Val)
  | deleteEntity (e : EntityId)
  | setComp (e : EntityId) (col : Nat) (v : Val)
deriving DecidableEq, Repr

/-- Modelled from the spec: the effect of one intervening world mutation.
    Entity creation issues the next entity id, appends a row to the target
    table and records the location; entity deletion removes the row, clears
    the record and bumps the stored generation; a component write updates
    one cell in place.  Ill-formed requests leave the world unchanged. -/
def applyOp (w : World) : Op → World
  | .newTable ty => (flecs_table_find_or_create w ty).1
  | .deleteTable tid => (flecs_delete_table w tid).1
  | .newEntity tid vals =>
      match storeGet w tid with
      | some tb =>
          if vals.length = tb.storage.columns.length then
            let e : EntityId := ⟨w.lastId + 1, 0⟩
            let row := tb.storage.entities.length
            let storage' : Data :=
              ⟨tb.storage.entities ++ [e], tb.storage.record_ptrs ++ [e.id],
               List.zipWith (fun c v => c ++ [v]) tb.storage.columns vals⟩
            let w1 := storeSet w tid (some { tb with storage := storage' })
            { w1 with
              lastId := w.lastId + 1,
              index := eisSetRecord w1.index e ⟨some tid, row⟩ }
          else w
      | none => w
  | .deleteEntity e =>
      match ecs_eis_get w e with
      | some r =>
          let w1 :=
            match r.table with
            | some tid => (flecs_table_delete w tid r.row true).1
            | none => w
          { w1 with index := w1.index.map (fun ent =>
              if ent.id = e.id then
                { ent with gen := ent.gen + 1, record := ⟨none, 0⟩ }
              else ent) }
      | none => w
  | .setComp e col v =>
      match ecs_eis_get w e with
      | some r =>
          match r.table with
          | some tid =>
              match storeGet w tid with
              | some tb =>
                  let cols := tb.storage.columns.set col
                    ((tb.storage.columns.getD col []).set r.row v)
                  let storage' := { tb.storage with columns := cols }
                  storeSet w tid (some { tb with storage := storage' })
              | none => w
          | none => w
      | none => w

/-- Apply a sequence of intervening mutations in order. -/
def applyOps (W : World) (ops : List Op) : World :=
  ops.foldl applyOp W

/-- An intervening mutation that does not delete a table live at capture
    time in the capture world `W`. -/
def opOk (W : World) : Op → Prop
  | .deleteTable tid => W.store.length ≤ tid ∨ storeGet W tid = none
  | _ => True

/-- A mutation sequence that never deletes a table live at capture time. -/
def OpsOk (W : World) (ops : List Op) : Prop :=
  ∀ op ∈ ops, opOk W op

/-- Per-table wellformedness: the table's id is its store slot and the
    storage arrays are mutually consistent (one record pointer per row and
    columns as long as the row count, one column per storage component). -/
def WfTable (i : Nat) (tb : Table) : Prop :=
  tb.id = i ∧ tb.storage.columns.length = tb.typeInfo.length ∧
  tb.storage.record_ptrs.length = tb.storage.entities.length ∧
  ∀ c ∈ tb.storage.columns, c.length = tb.storage.entities.length

/-- Wellformedness of one store slot (holes are always wellformed). -/
def WfSlot (i : Nat) : Option Table → Prop
  | some tb => WfTable i tb
  | none => True

/-- Wellformedness of the whole table store. -/
def WfTables (w : World) : Prop :=
  ∀ i, i < w.store.length → WfSlot i (storeGet w i)

/-- The id-identity invariant of one slot: a live table's id is its slot. -/
def IdSlot (i : Nat) : Option Table → Prop
  | some tb => tb.id = i
  | none => True

/-- The id-identity invariant of the store. -/
def WfIds (w : World) : Prop :=
  ∀ i, i < w.store.length → IdSlot i (storeGet w i)

/-- The id-identity condition on a leaf: its table reference, when present,
    is the table at the leaf's own slot. -/
def LeafIdOk (i : Nat) (l : Leaf) : Prop :=
  match l.table with
  | some j => j = i
  | none => True

/-- The id-identity precondition on a snapshot's leaf array. -/
def IdIdentity (leafs : List Leaf) : Prop :=
  ∀ i, i < leafs.length → LeafIdOk i (leafs.getD i Leaf.zero)

/-- The observable table state at id `i`: the type and data of the live
    table there, with internal tables (out of the subsystem's observable
    scope) and holes both reading as `none`. -/
def obsTableAt (w : World) (i : Nat) : Option (List Nat × Data) :=
  match storeGet w i with
  | some tb => if tb.builtin then none else some (tb.type, tb.storage)
  | none => none

/-- Observable equality of worlds: the same entity index (live identifiers,
    generations, table membership), the same last issued id and the same
    non-internal table state at every table id. -/
def ObservableEq (w1 w2 : World) : Prop :=
  w1.index = w2.index ∧ w1.lastId = w2.lastId ∧
  ∀ i, obsTableAt w1 i = obsTableAt w2 i

/-- The observable state of one entity, the triple the round-trip contract
    quantifies over: whether the identifier is live (outer option), and if
    so, whether its record gives it a location in a live non-internal table
    (inner option), together with that table's type — the entity's table
    membership — and the component value stored at the entity's row in each
    storage column.  A record pointing at a hole in the store, or at an
    internal table outside the subsystem's observable scope, reads as no
    observable location. -/
def entityObs (w : World) (e : EntityId) :
    Option (Option (List Nat × List Val)) :=
  match ecs_eis_get w e with
  | none => none
  | some r =>
      match r.table with
      | none => some none
      | some tid =>
          match obsTableAt w tid with
          | none => some none
          | some (ty, d) =>
              some (some (ty, d.columns.map (fun c => c.getD r.row 0)))

/-- The slot-local outcome of one diff iteration: what the table slot at a
    diffed id holds after its case is processed. -/
def stepSlot (leafs : List Leaf) (i : Nat) : Option Table → Option Table
  | some tb =>
      if tb.builtin then some tb
      else
        match leafAt leafs i with
        | some l =>
            match l.data with
            | some d => some { tb with storage := d }
            | none => some { tb with storage := emptyData tb.typeInfo.length }
        | none => none
  | none => none

/-- Configurations in which one diff iteration is slot-local and cannot
    abort: wherever the leaf has a table reference, a live table exists at
    that id and (unless internal) the identity assertion holds. -/
def SlotOk (leafs : List Leaf) (i : Nat) (t : Option Table) : Prop :=
  match leafAt leafs i with
  | some l => ∃ tb, t = some tb ∧ (tb.builtin = true ∨ l.table = some tb.id)
  | none => True

/-- The per-slot agreement between the capture-time store and the store at
    restore time: liveness is unchanged and the table's identity-carrying
    fields (id, internal flag, type, column layout) are untouched. -/
def TableAgree : Option Table → Option Table → Prop
  | some tb, some tb' =>
      tb'.id = tb.id ∧ tb'.builtin = tb.builtin ∧ tb'.type = tb.type ∧
      tb'.typeInfo = tb.typeInfo
  | none, none => True
  | _, _ => False

/-- The store invariant between capture world `W` and restore-time world
    `w`: ids only grow and every capture-time slot agrees. -/
def Inv (W w : World) : Prop :=
  W.store.length ≤ w.store.length ∧
  ∀ i, i < W.store.length → TableAgree (storeGet W i) (storeGet w i)

/-- Whether a live, non-internal table sits at store slot `i`. -/
def liveNonBuiltin (w : World) (i : Nat) : Bool :=
  match storeGet w i with
  | some tb => !tb.builtin
  | none => false

/-- The leaf value capture produces for slot `i`: the captured table
    reference, cloned type and cloned data of a live non-internal table
    there, and the zero leaf otherwise. -/
def captureLeaf (w : World) (i : Nat) : Leaf :=
  match storeGet w i with
  | some tb =>
      if tb.builtin then Leaf.zero
      else ⟨some i, tb.type, duplicate_data tb tb.storage⟩
  | none => Leaf.zero

/-- The table ids the capture loop visits: the iterator's yields for a
    filtered capture and every id up to the highest observed one for a
    full capture. -/
def capturedIds (w : World) (iter : Option (List Nat)) : List Nat :=
  match iter with
  | some ids => ids
  | none => List.range (flecs_sparse_last_id w.store + 1)

instance (i : Nat) (tb : Table) : Decidable (WfTable i tb) := by
  unfold WfTable; infer_instance

instance (i : Nat) (o : Option Table) : Decidable (WfSlot i o) := by
  unfold WfSlot; cases o <;> infer_instance

instance (w : World) : Decidable (WfTables w) := by
  unfold WfTables; exact Nat.decidableBallLT _ _

instance (i : Nat) (o : Option Table) : Decidable (IdSlot i o) := by
  unfold IdSlot; cases o <;> infer_instance

instance (w : World) : Decidable (WfIds w) := by
  unfold WfIds; exact Nat.decidableBallLT _ _

instance (i : Nat) (l : Leaf) : Decidable (LeafIdOk i l) := by
  unfold LeafIdOk; cases h : l.table <;> infer_instance

instance (leafs : List Leaf) : Decidable (IdIdentity leafs) := by
  unfold IdIdentity; exact Nat.decidableBallLT _ _

instance (W : World) (op : Op) : Decidable (opOk W op) := by
  unfold opOk; cases op <;> infer_instance

instance (W : World) (ops : List Op) : Decidable (OpsOk W ops) := by
  unfold OpsOk; infer_instance

/-- Example column info: component 7 carries data and has a destructor but
    no copy constructor. -/
def exInfo : ColumnInfo := ⟨7, false, false, true⟩

/-- Example column info: component 8 has all lifecycle hooks. -/
def exInfoCopy : ColumnInfo := ⟨8, true, true, true⟩

/-- Example registry: component 7 carries data; everything else is a tag. -/
def exReg : List (Nat × ColumnInfo) := [(7, exInfo)]

/-- Example entity 1, generation 0. -/
def exE1 : EntityId := ⟨1, 0⟩

/-- Example entity 2, generation 0. -/
def exE2 : EntityId := ⟨2, 0⟩

/-- Example table 0 of type `[7]` holding entities 1 and 2 with component
    values 10 and 20. -/
def exT0 : Table := ⟨0, false, [7], [exInfo], ⟨[exE1, exE2], [1, 2], [[10, 20]]⟩⟩

/-- Example world: table 0 with two entities, their index records, last
    issued id 2. -/
def exW : World :=
  ⟨[⟨1, 0, ⟨some 0, 0⟩⟩, ⟨2, 0, ⟨some 0, 1⟩⟩], [some exT0], 2, exReg⟩

/-- Example empty table of type `[9]` (a tag-only, zero-entity table). -/
def exTEmpty : Table := ⟨1, false, [9], [], ⟨[], [], []⟩⟩

/-- Example builtin (internal) table at id 2. -/
def exTBuiltin : Table := ⟨2, true, [3], [], ⟨[], [], []⟩⟩

/-- Example world with a populated table, an empty table and an internal
    table. -/
def exW3 : World :=
  ⟨[⟨1, 0, ⟨some 0, 0⟩⟩, ⟨2, 0, ⟨some 0, 1⟩⟩],
   [some exT0, some exTEmpty, some exTBuiltin], 2, exReg⟩

/-- Example capture-then-delete table: table 0 of type `[7]` holding
    entity 1 with component value 10.  Deleted (together with its entity)
    after capture, to exhibit the loss of the entity's observable state. -/
def cexT : Table := ⟨0, false, [7], [exInfo], ⟨[exE1], [1], [[10]]⟩⟩

/-- Example world holding `cexT` and entity 1's index record. -/
def cexW : World := ⟨[⟨1, 0, ⟨some 0, 0⟩⟩], [some cexT], 1, exReg⟩

/-- Example restore-time world for the diff range: table 0 live, table 1
    deleted (a hole left at its id). -/
def w2c : World := ⟨[], [some exT0, none], 0, exReg⟩

/-- Example snapshot-only leaf array: a hole at id 0 and a captured
    (since deleted) empty table of type `[9]` at id 1. -/
def leafs2c : List Leaf := [Leaf.zero, ⟨some 1, [9], none⟩]

/-! ### Capture lemmas -/

lemma captureFold_cons_some (w : World) (t : Nat) (rest : List Nat)
    (s : Snapshot) (tb : Table) (h : storeGet w t = some tb) :
    captureFold w (t :: rest) s = captureFold w rest (snapshot_table s tb) := by
  unfold captureFold
  rw [List.foldl_cons, h]

lemma captureFold_cons_none (w : World) (t : Nat) (rest : List Nat)
    (s : Snapshot) (h : storeGet w t = none) :
    captureFold w (t :: rest) s = captureFold w rest s := by
  unfold captureFold
  rw [List.foldl_cons, h]

lemma snapshot_table_tables_length (s : Snapshot) (tb : Table) :
    (snapshot_table s tb).tables.length = s.tables.length := by
  unfold snapshot_table
  split <;> simp

lemma snapshot_table_entity_index (s : Snapshot) (tb : Table) :
    (snapshot_table s tb).entity_index = s.entity_index := by
  unfold snapshot_table
  split <;> rfl

lemma captureFold_tables_length (w : World) (ts : List Nat) :
    ∀ s : Snapshot, (captureFold w ts s).tables.length = s.tables.length := by
  induction ts with
  | nil => intro s; rfl
  | cons t rest ih =>
      intro s
      cases h : storeGet w t with
      | some tb =>
          rw [captureFold_cons_some w t rest s tb h, ih,
            snapshot_table_tables_length]
      | none => rw [captureFold_cons_none w t rest s h, ih]

lemma captureFold_entity_index (w : World) (ts : List Nat) :
    ∀ s : Snapshot, (captureFold w ts s).entity_index = s.entity_index := by
  induction ts with
  | nil => intro s; rfl
  | cons t rest ih =>
      intro s
      cases h : storeGet w t with
      | some tb =>
          rw [captureFold_cons_some w t rest s tb h, ih,
            snapshot_table_entity_index]
      | none => rw [captureFold_cons_none w t rest s h, ih]

lemma storeGet_some_lt (w : World) (i : Nat) (tb : Table)
    (h : storeGet w i = some tb) : i < w.store.length := by
  unfold storeGet at h
  cases hg : w.store.get? i with
  | none => rw [hg] at h; simp at h
  | some o => exact (List.get?_eq_some.mp hg).1

lemma liveNonBuiltin_of_some (w : World) (i : Nat) (tb : Table)
    (h : storeGet w i = some tb) (hb : tb.builtin = false) :
    liveNonBuiltin w i = true := by
  unfold liveNonBuiltin
  rw [h]
  simp [hb]

lemma captureFold_get? (w : World) (hwf : WfIds w) (ts : List Nat) :
    ∀ (s : Snapshot), w.store.length ≤ s.tables.length → ∀ i,
      (captureFold w ts s).tables.get? i =
        if i ∈ ts ∧ liveNonBuiltin w i = true then some (captureLeaf w i)
        else s.tables.get? i := by
  induction ts with
  | nil =>
      intro s _ i
      simp [captureFold]
  | cons t rest ih =>
      intro s hlen i
      cases h : storeGet w t with
      | none =>
          rw [captureFold_cons_none w t rest s h, ih s hlen i]
          by_cases hl : liveNonBuiltin w i = true
          · by_cases hit : i = t
            · subst hit
              unfold liveNonBuiltin at hl
              rw [h] at hl
              simp at hl
            · simp [List.mem_cons, hit, hl]
          · simp [hl]
      | some tb =>
          rw [captureFold_cons_some w t rest s tb h]
          by_cases hb : tb.builtin
          · have hsk : snapshot_table s tb = s := by
              unfold snapshot_table
              simp [hb]
            rw [hsk, ih s hlen i]
            by_cases hl : liveNonBuiltin w i = true
            · by_cases hit : i = t
              · subst hit
                unfold liveNonBuiltin at hl
                rw [h] at hl
                simp [hb] at hl
              · simp [List.mem_cons, hit, hl]
            · simp [hl]
          · have htlt : t < w.store.length := storeGet_some_lt w t tb h
            have hid : tb.id = t := by
              have := hwf t htlt
              unfold IdSlot at this
              rw [h] at this
              exact this
            have hbf : tb.builtin = false := by simpa using hb
            have hcap : captureLeaf w t =
                ⟨some t, tb.type, duplicate_data tb tb.storage⟩ := by
              unfold captureLeaf
              rw [h]
              simp [hbf]
            have hset : snapshot_table s tb =
                { s with tables := s.tables.set t (captureLeaf w t) } := by
              unfold snapshot_table
              rw [hbf, hid, hcap]
              simp
            rw [hset]
            have hlen' : w.store.length ≤
                (s.tables.set t (captureLeaf w t)).length := by
              simpa using hlen
            rw [ih _ hlen' i]
            by_cases hm : i ∈ rest ∧ liveNonBuiltin w i = true
            · simp only [hm, if_pos]
              have : i ∈ t :: rest ∧ liveNonBuiltin w i = true :=
                ⟨List.mem_cons_of_mem t hm.1, hm.2⟩
              simp [this]
            · simp only [hm, if_neg, not_false_iff]
              by_cases hit : i = t
              · subst hit
                have hlive : liveNonBuiltin w i = true :=
                  liveNonBuiltin_of_some w i tb h hbf
                have hcond : i ∈ i :: rest ∧ liveNonBuiltin w i = true :=
                  ⟨List.mem_cons_self i rest, hlive⟩
                simp only [hcond, and_self, if_pos]
                exact List.get?_set_eq_of_lt _ (lt_of_lt_of_le htlt hlen)
              · rw [List.get?_set_ne _ _ (fun hh => hit hh.symm)]
                have hnc : ¬(i ∈ t :: rest ∧ liveNonBuiltin w i = true) := by
                  intro hc
                  rcases List.mem_cons.mp hc.1 with he | hr
                  · exact hit he
                  · exact hm ⟨hr, hc.2⟩
                rw [if_neg hnc]

lemma store_length_le_count (store : List (Option Table)) :
    store.length ≤ flecs_sparse_last_id store + 1 := by
  unfold flecs_sparse_last_id
  omega

lemma snapshot_create_tables_length (w : World) (ei : EntityIndex)
    (iter : Option (List Nat)) :
    (snapshot_create w ei iter).tables.length =
      flecs_sparse_last_id w.store + 1 := by
  unfold snapshot_create
  cases iter <;> simp [captureFold_tables_length]

lemma snapshot_create_get? (w : World) (ei : EntityIndex)
    (iter : Option (List Nat)) (hwf : WfIds w) (i : Nat) :
    (snapshot_create w ei iter).tables.get? i =
      if i ∈ capturedIds w iter ∧ liveNonBuiltin w i = true then
        some (captureLeaf w i)
      else if i < flecs_sparse_last_id w.store + 1 then some Leaf.zero
      else none := by
  have hrep : ∀ j, (List.replicate (flecs_sparse_last_id w.store + 1) Leaf.zero).get? j =
      if j < flecs_sparse_last_id w.store + 1 then some Leaf.zero else none := by
    intro j
    by_cases hj : j < flecs_sparse_last_id w.store + 1
    · rw [List.get?_eq_getElem?]
      simp [List.getElem?_replicate, hj]
    · rw [List.get?_eq_getElem?, List.getElem?_eq_none]
      · simp [hj]
      · simpa using Nat.le_of_not_lt hj
  cases iter with
  | none =>
      unfold snapshot_create capturedIds
      simp only
      rw [captureFold_get? w hwf _ _ (by simpa using store_length_le_count w.store) i]
      simp only [hrep]
  | some ids =>
      unfold snapshot_create capturedIds
      simp only
      rw [captureFold_get? w hwf _ _ (by simpa using store_length_le_count w.store) i]
      simp only [hrep]

/-- C7: for every snapshot, full (no iterator) or filtered, the leaf array's
    length immediately after capture is the highest observed table id plus
    one, and every slot not populated by a captured (selected, live,
    non-internal) table is the zero leaf. -/
theorem claim_C7_leaf_array_shape (w : World) (iter : Option (List Nat))
    (hwf : WfIds w) :
    (snapshot_create w w.index iter).tables.length =
      flecs_sparse_last_id w.store + 1 ∧
    ∀ i, i < (snapshot_create w w.index iter).tables.length →
      (i ∉ capturedIds w iter ∨ liveNonBuiltin w i = false) →
      (snapshot_create w w.index iter).tables.get? i = some Leaf.zero := by
  refine ⟨snapshot_create_tables_length w w.index iter, ?_⟩
  intro i hi hnc
  rw [snapshot_create_get? w w.index iter hwf i]
  rw [snapshot_create_tables_length w w.index iter] at hi
  have hcond : ¬(i ∈ capturedIds w iter ∧ liveNonBuiltin w i = true) := by
    intro hc
    rcases hnc with hn | hf
    · exact hn hc.1
    · rw [hf] at hc
      exact Bool.false_ne_true hc.2
  simp [hcond, hi]

/-- Witness for C7 at a concrete world: a filtered capture of table 0 in a
    three-table world leaves the unselected slot 1 and the internal slot 2
    as zero leaves, and sizes the leaf array to three. -/
theorem claim_C7_witness :
    WfIds exW3 ∧
    (snapshot_create exW3 exW3.index (some [0])).tables.length =
      flecs_sparse_last_id exW3.store + 1 ∧
    (snapshot_create exW3 exW3.index (some [0])).tables.get? 1 =
      some Leaf.zero ∧
    (snapshot_create exW3 exW3.index none).tables.get? 2 = some Leaf.zero := by
  have hwf : WfIds exW3 := by decide
  refine ⟨hwf, (claim_C7_leaf_array_shape exW3 (some [0]) hwf).1, ?_, ?_⟩
  · exact (claim_C7_leaf_array_shape exW3 (some [0]) hwf).2 1 (by decide)
      (Or.inl (by decide))
  · exact (claim_C7_leaf_array_shape exW3 none hwf).2 2 (by decide)
      (Or.inr (by decide))

/-- C8: capture of a table skips it entirely when it is flagged internal;
    otherwise it fills the leaf at the table's id with the table reference,
    the cloned type and the cloned data, and the cloned data is absent
    exactly when the table holds no entities; when entities are present the
    clone equals the source data value for value. -/
theorem claim_C8_capture_table (s : Snapshot) (tb : Table)
    (hid : tb.id < s.tables.length)
    (hcols : tb.storage.columns.length = tb.typeInfo.length) :
    (tb.builtin = true → snapshot_table s tb = s) ∧
    (tb.builtin = false →
      (snapshot_table s tb).tables.get? tb.id =
        some ⟨some tb.id, tb.type, duplicate_data tb tb.storage⟩ ∧
      (duplicate_data tb tb.storage = none ↔ tb.storage.entities.length = 0) ∧
      (tb.storage.entities.length ≠ 0 →
        duplicate_data tb tb.storage = some tb.storage)) := by
  constructor
  · intro hb
    unfold snapshot_table
    simp [hb]
  · intro hb
    refine ⟨?_, ?_, ?_⟩
    · unfold snapshot_table
      rw [hb]
      simp only [Bool.false_eq_true, if_false]
      exact List.get?_set_eq_of_lt _ hid
    · unfold duplicate_data
      by_cases hz : tb.storage.entities.length = 0
      · simp [hz]
      · simp [hz]
    · intro hz
      unfold duplicate_data
      rw [if_neg hz]
      have hmap : (tb.typeInfo.zip tb.storage.columns).map
          (fun p => if p.1.hasCopy then p.2 else p.2) = tb.storage.columns := by
        have h1 : (tb.typeInfo.zip tb.storage.columns).map
            (fun p => if p.1.hasCopy then p.2 else p.2) =
            (tb.typeInfo.zip tb.storage.columns).map Prod.snd := by
          apply List.map_congr_left
          intro p _
          exact ite_self p.2
        rw [h1]
        exact List.map_snd_zip _ _ (le_of_eq hcols)
      rw [hmap]

/-- Witness for C8 at a concrete table: the populated two-row table yields a
    leaf with a value-equal clone, and an internal table is skipped. -/
theorem claim_C8_witness :
    exT0.id < (ecs_snapshot_take exW).tables.length ∧
    exT0.storage.columns.length = exT0.typeInfo.length ∧
    (exT0.builtin = false →
      (snapshot_table (ecs_snapshot_take exW) exT0).tables.get? exT0.id =
        some ⟨some exT0.id, exT0.type, duplicate_data exT0 exT0.storage⟩ ∧
      (duplicate_data exT0 exT0.storage = none ↔
        exT0.storage.entities.length = 0) ∧
      (exT0.storage.entities.length ≠ 0 →
        duplicate_data exT0 exT0.storage = some exT0.storage)) := by
  refine ⟨by decide, by decide, ?_⟩
  exact (claim_C8_capture_table (ecs_snapshot_take exW) exT0 (by decide)
    (by decide)).2

/-- C6 counterexample: a filtered capture does record the world's last
    issued entity id — at the concrete world `exW` (last issued id 2) the
    filtered snapshot's recorded id is 2, not the zero-initialized value
    the claim implies. -/
theorem claim_C6_counterexample :
    (ecs_snapshot_take_w_iter exW [0]).last_id = exW.lastId ∧
    (ecs_snapshot_take_w_iter exW [0]).last_id ≠ 0 := by
  decide

/-- C6 (amended): the world's last issued entity id is recorded into the
    snapshot by both the full and the filtered capture entry points (the
    recorded value is only consumed by unfiltered restore). -/
theorem claim_C6_last_id_recorded (w : World) (ids : List Nat) :
    (ecs_snapshot_take w).last_id = w.lastId ∧
    (ecs_snapshot_take_w_iter w ids).last_id = w.lastId :=
  ⟨rfl, rfl⟩

/-! ### Store access lemmas -/

lemma storeGet_storeSet_self (w : World) (m : Nat) (t : Option Table)
    (hm : m < w.store.length) : storeGet (storeSet w m t) m = t := by
  unfold storeGet storeSet
  rw [List.get?_set_eq_of_lt _ hm]
  rfl

lemma storeGet_storeSet_ne (w : World) (m n : Nat) (t : Option Table)
    (h : m ≠ n) : storeGet (storeSet w m t) n = storeGet w n := by
  unfold storeGet storeSet
  rw [List.get?_set_ne _ _ h]

lemma storeGet_index_update (w : World) (idx : EntityIndex) (n : Nat) :
    storeGet { w with index := idx } n = storeGet w n := rfl

lemma storeSet_length (w : World) (m : Nat) (t : Option Table) :
    (storeSet w m t).store.length = w.store.length := by
  unfold storeSet
  simp

/-! ### Filtered restore lemmas -/

lemma rowDtorEvents_shape (tis : List ColumnInfo) (cols : List (List Val))
    (row : Nat) :
    ∀ ev ∈ rowDtorEvents tis cols row, ev.isRemove = false ∧ ev.isSet = false := by
  intro ev hev
  unfold rowDtorEvents at hev
  rw [List.mem_flatten] at hev
  obtain ⟨l, hl, hevl⟩ := hev
  rw [List.mem_map] at hl
  obtain ⟨p, _, rfl⟩ := hl
  by_cases hd : p.1.hasDtor
  · rw [if_pos hd] at hevl
    cases hm : p.2.get? row with
    | some v =>
        rw [hm] at hevl
        simp at hevl
        subst hevl
        exact ⟨rfl, rfl⟩
    | none =>
        rw [hm] at hevl
        simp at hevl
  · rw [if_neg hd] at hevl
    simp at hevl

lemma dtorEventsData_shape (tis : List ColumnInfo) (cols : List (List Val)) :
    ∀ ev ∈ dtorEventsData tis cols, ev.isRemove = false ∧ ev.isSet = false := by
  intro ev hev
  unfold dtorEventsData at hev
  rw [List.mem_flatten] at hev
  obtain ⟨l, hl, hevl⟩ := hev
  rw [List.mem_map] at hl
  obtain ⟨p, _, rfl⟩ := hl
  by_cases hd : p.1.hasDtor
  · rw [if_pos hd] at hevl
    rw [List.mem_map] at hevl
    obtain ⟨v, _, rfl⟩ := hevl
    exact ⟨rfl, rfl⟩
  · rw [if_neg hd] at hevl
    simp at hevl

lemma flecs_table_delete_events (w : World) (tid row : Nat) (b : Bool) :
    ∀ ev ∈ (flecs_table_delete w tid row b).2,
      ev.isRemove = false ∧ ev.isSet = false := by
  intro ev hev
  unfold flecs_table_delete at hev
  cases h : storeGet w tid with
  | none =>
      simp only [h] at hev
      simp at hev
  | some tb =>
      simp only [h] at hev
      by_cases hr : row < tb.storage.entities.length
      · rw [if_pos hr] at hev
        dsimp only at hev
        by_cases hb : b
        · rw [if_pos hb] at hev
          exact rowDtorEvents_shape _ _ _ ev hev
        · rw [if_neg hb] at hev
          simp at hev
      · rw [if_neg hr] at hev
        simp at hev

lemma ecs_eis_set_generation_store (w : World) (e : EntityId) :
    (ecs_eis_set_generation w e).store = w.store := by
  unfold ecs_eis_set_generation
  split <;> rfl

lemma flecs_table_delete_isSome (w : World) (tid row : Nat) (b : Bool) (n : Nat) :
    (storeGet (flecs_table_delete w tid row b).1 n).isSome =
      (storeGet w n).isSome := by
  unfold flecs_table_delete
  cases h : storeGet w tid with
  | none => simp only [h]
  | some tb =>
      simp only [h]
      by_cases hr : row < tb.storage.entities.length
      · rw [if_pos hr]
        dsimp only
        have hw1 : ∀ tb' : Table,
            (storeGet (storeSet w tid (some tb')) n).isSome =
              (storeGet w n).isSome := by
          intro tb'
          by_cases hn : tid = n
          · subst hn
            rw [storeGet_storeSet_self w tid _ (storeGet_some_lt w tid tb h), h]
            rfl
          · rw [storeGet_storeSet_ne w tid n _ hn]
        split
        · split
          · rw [storeGet_index_update]
            exact hw1 _
          · exact hw1 _
        · exact hw1 _
      · rw [if_neg hr]

lemma restore_filtered_entity_events (w : World) (e : EntityId) :
    ∀ ev ∈ (restore_filtered_entity w e).2,
      ev.isRemove = false ∧ ev.isSet = false := by
  intro ev hev
  unfold restore_filtered_entity at hev
  cases hg : ecs_eis_get w e with
  | some r =>
      simp only [hg] at hev
      cases ht : r.table with
      | some tid =>
          simp only [ht] at hev
          exact flecs_table_delete_events w tid r.row true ev hev
      | none =>
          simp only [ht] at hev
          simp at hev
  | none =>
      simp only [hg] at hev
      simp at hev

lemma restore_filtered_entity_isSome (w : World) (e : EntityId) (n : Nat) :
    (storeGet (restore_filtered_entity w e).1 n).isSome =
      (storeGet w n).isSome := by
  unfold restore_filtered_entity
  cases hg : ecs_eis_get w e with
  | some r =>
      simp only [hg]
      cases ht : r.table with
      | some tid =>
          simp only [ht]
          exact flecs_table_delete_isSome w tid r.row true n
      | none =>
          simp only [ht]
          unfold storeGet
          rw [ecs_eis_set_generation_store]
  | none =>
      simp only [hg]
      unfold storeGet
      rw [ecs_eis_set_generation_store]

lemma delete_pass_isSome (es : List EntityId) : ∀ (w : World) (n : Nat),
    (storeGet (restore_filtered_delete_pass w es).1 n).isSome =
      (storeGet w n).isSome := by
  induction es with
  | nil => intro w n; rfl
  | cons e es ih =>
      intro w n
      unfold restore_filtered_delete_pass
      dsimp only
      rw [ih, restore_filtered_entity_isSome]

lemma delete_pass_events (es : List EntityId) : ∀ (w : World),
    ∀ ev ∈ (restore_filtered_delete_pass w es).2,
      ev.isRemove = false ∧ ev.isSet = false := by
  induction es with
  | nil =>
      intro w ev hev
      simp [restore_filtered_delete_pass] at hev
  | cons e es ih =>
      intro w ev hev
      unfold restore_filtered_delete_pass at hev
      dsimp only at hev
      rw [List.mem_append] at hev
      rcases hev with h1 | h2
      · exact restore_filtered_entity_events w e ev h1
      · exact ih _ ev h2

lemma eisFind_map_gen (i g : Nat) :
    ∀ (l : EntityIndex), (l.find? (fun ent => ent.id = i)).isSome = true →
      ∃ ent, ((l.map (fun ent =>
          if ent.id = i then { ent with gen := g } else ent)).find?
            (fun ent => ent.id = i)) = some ent ∧ ent.gen = g := by
  intro l
  induction l with
  | nil => intro h; simp [List.find?] at h
  | cons a l ih =>
      intro h
      by_cases ha : a.id = i
      · refine ⟨{ a with gen := g }, ?_, rfl⟩
        rw [List.map_cons, if_pos ha]
        apply List.find?_cons_of_pos
        simp [ha]
      · rw [List.map_cons, if_neg ha]
        rw [List.find?_cons_of_neg _ (by simp [ha])]
        apply ih
        rw [List.find?_cons_of_neg _ (by simp [ha])] at h
        exact h

lemma find?_append_right {α} (p : α → Bool) :
    ∀ (l : List α) (x : α), l.find? p = none → p x = true →
      (l ++ [x]).find? p = some x := by
  intro l
  induction l with
  | nil =>
      intro x _ hx
      simp [List.find?_cons_of_pos _ hx]
  | cons a l ih =>
      intro x hn hx
      have hpa : ¬p a = true := by
        intro ha
        rw [List.find?_cons_of_pos _ ha] at hn
        simp at hn
      rw [List.find?_cons_of_neg _ hpa] at hn
      rw [List.cons_append, List.find?_cons_of_neg _ hpa]
      exact ih x hn hx

lemma eisFind_set_generation (w : World) (e : EntityId) :
    ∃ ent, eisFind (ecs_eis_set_generation w e).index e.id = some ent ∧
      ent.gen = e.gen := by
  unfold ecs_eis_set_generation
  by_cases hs : (eisFind w.index e.id).isSome
  · rw [if_pos hs]
    unfold eisFind at hs ⊢
    exact eisFind_map_gen e.id e.gen w.index hs
  · rw [if_neg hs]
    refine ⟨⟨e.id, e.gen, ⟨none, 0⟩⟩, ?_, rfl⟩
    unfold eisFind at hs ⊢
    have hnone : w.index.find? (fun ent => ent.id = e.id) = none := by
      cases hf : w.index.find? (fun ent => ent.id = e.id) with
      | none => rfl
      | some x => rw [hf] at hs; simp at hs
    exact find?_append_right _ w.index _ hnone (by simp)

lemma removeSwapE_length (l : List EntityId) (row : Nat) (h : 0 < l.length) :
    (removeSwapE l row).length = l.length - 1 := by
  unfold removeSwapE
  cases hl : l.getLast? with
  | none =>
      rw [List.getLast?_eq_none_iff] at hl
      subst hl
      simp at h
  | some x => simp

lemma flecs_table_delete_get_self (w : World) (tid row : Nat) (tb : Table)
    (h : storeGet w tid = some tb) (hrow : row < tb.storage.entities.length) :
    storeGet (flecs_table_delete w tid row true).1 tid =
      some { tb with storage :=
        ⟨removeSwapE tb.storage.entities row,
         removeSwapN tb.storage.record_ptrs row,
         tb.storage.columns.map (fun c => removeSwap c row)⟩ } := by
  unfold flecs_table_delete
  simp only [h]
  rw [if_pos hrow]
  dsimp only
  have hself : ∀ tb' : Table,
      storeGet (storeSet w tid (some tb')) tid = some tb' := fun tb' =>
    storeGet_storeSet_self w tid _ (storeGet_some_lt w tid tb h)
  split
  · split
    · rw [storeGet_index_update]
      exact hself _
    · exact hself _
  · exact hself _

/-- C5: during filtered restore, a captured entity that currently has a
    valid location is removed from its current table's row — the row count
    drops by one and no removal notification is dispatched — and a captured
    entity with no valid location has the entity index's stored generation
    for its id set to the captured identifier's generation. -/
theorem claim_C5_filtered_entity_pass (w : World) (e : EntityId) :
    (∀ r tid tb, ecs_eis_get w e = some r → r.table = some tid →
      storeGet w tid = some tb → r.row < tb.storage.entities.length →
      restore_filtered_entity w e = flecs_table_delete w tid r.row true ∧
      tableCount (restore_filtered_entity w e).1 tid =
        tableCount w tid - 1 ∧
      (∀ ev ∈ (restore_filtered_entity w e).2, ev.isRemove = false)) ∧
    ((ecs_eis_get w e = none ∨
        (∃ r, ecs_eis_get w e = some r ∧ r.table = none)) →
      restore_filtered_entity w e = (ecs_eis_set_generation w e, []) ∧
      (∃ ent, eisFind (ecs_eis_set_generation w e).index e.id = some ent ∧
        ent.gen = e.gen)) := by
  constructor
  · intro r tid tb hg ht hlive hrow
    have heq : restore_filtered_entity w e = flecs_table_delete w tid r.row true := by
      unfold restore_filtered_entity
      simp only [hg, ht]
    refine ⟨heq, ?_, ?_⟩
    · rw [heq]
      have h1 := flecs_table_delete_get_self w tid r.row tb hlive hrow
      unfold tableCount
      simp only [h1, hlive]
      exact removeSwapE_length _ _ (Nat.lt_of_le_of_lt (Nat.zero_le _) hrow)
    · intro ev hev
      exact (restore_filtered_entity_events w e ev hev).1
  · intro hcase
    have heq : restore_filtered_entity w e = (ecs_eis_set_generation w e, []) := by
      unfold restore_filtered_entity
      rcases hcase with hn | ⟨r, hg, ht⟩
      · simp only [hn]
      · simp only [hg, ht]
    exact ⟨heq, eisFind_set_generation w e⟩

/-- Witness for C5: in the concrete world `exW`, entity 1 (located at table
    0, row 0) is handled by the table-row deletion path, and the unknown
    entity (id 5, generation 1) gets generation 1 recorded in the index. -/
theorem claim_C5_witness :
    restore_filtered_entity exW exE1 = flecs_table_delete exW 0 0 true ∧
    (∃ ent, eisFind (ecs_eis_set_generation exW ⟨5, 1⟩).index 5 = some ent ∧
      ent.gen = 1) := by
  constructor
  · exact ((claim_C5_filtered_entity_pass exW exE1).1 ⟨some 0, 0⟩ 0 exT0
      (by decide) rfl (by decide) (by decide)).1
  · exact ((claim_C5_filtered_entity_pass exW ⟨5, 1⟩).2
      (Or.inl (by decide))).2

/-- C4: during filtered restore, a leaf with a table reference and captured
    data first runs the entity-deletion pass, records the live table's row
    count before the merge, merges the captured rows by appending them to
    the live table's storage, and the events of the leaf's processing
    contain exactly one update notification — covering exactly the appended
    range starting at the pre-merge row count with the captured row count. -/
theorem claim_C4_filtered_merge (w : World) (l : Leaf) (tid : Nat) (d : Data)
    (hT : l.table = some tid) (hD : l.data = some d)
    (hne : d.entities ≠ [])
    (hlive : (storeGet w tid).isSome = true) :
    restore_filtered_leaf w l =
      (flecs_table_merge (restore_filtered_delete_pass w d.entities).1 tid d,
       (restore_filtered_delete_pass w d.entities).2 ++
         [Event.onSet tid
           (tableCount (restore_filtered_delete_pass w d.entities).1 tid)
           d.entities.length]) ∧
    (restore_filtered_leaf w l).2.filter (fun ev => ev.isSet) =
      [Event.onSet tid
        (tableCount (restore_filtered_delete_pass w d.entities).1 tid)
        d.entities.length] ∧
    (∃ tb1, storeGet (restore_filtered_delete_pass w d.entities).1 tid =
        some tb1 ∧
      ∃ tb2, storeGet (restore_filtered_leaf w l).1 tid = some tb2 ∧
        tb2.storage.entities = tb1.storage.entities ++ d.entities) := by
  have hlen : d.entities.length ≠ 0 := by
    intro hz
    exact hne (List.length_eq_zero.mp hz)
  have heq : restore_filtered_leaf w l =
      (flecs_table_merge (restore_filtered_delete_pass w d.entities).1 tid d,
       (restore_filtered_delete_pass w d.entities).2 ++
         [Event.onSet tid
           (tableCount (restore_filtered_delete_pass w d.entities).1 tid)
           d.entities.length]) := by
    unfold restore_filtered_leaf
    simp only [hT, hD]
    rw [if_pos hlen]
  have hlive1 : (storeGet (restore_filtered_delete_pass w d.entities).1 tid).isSome
      = true := by
    rw [delete_pass_isSome]
    exact hlive
  obtain ⟨tb1, htb1⟩ := Option.isSome_iff_exists.mp hlive1
  refine ⟨heq, ?_, ?_⟩
  · rw [heq]
    dsimp only
    rw [List.filter_append]
    have h1 : (restore_filtered_delete_pass w d.entities).2.filter
        (fun ev => ev.isSet) = [] := by
      rw [List.filter_eq_nil]
      intro ev hev
      rw [(delete_pass_events d.entities w ev hev).2]
      simp
    rw [h1]
    rfl
  · refine ⟨tb1, htb1, ?_⟩
    rw [heq]
    dsimp only
    unfold flecs_table_merge
    simp only [htb1]
    rw [storeGet_index_update,
      storeGet_storeSet_self _ tid _
        (storeGet_some_lt _ tid tb1 htb1)]
    exact ⟨_, rfl, rfl⟩

/-- Witness for C4: restoring a filtered leaf capturing both rows of table
    0 into `exW` issues exactly one on-set notification for the appended
    range of that table. -/
theorem claim_C4_witness :
    exT0.storage.entities ≠ [] ∧
    (storeGet exW 0).isSome = true ∧
    (restore_filtered_leaf exW ⟨some 0, [7], some exT0.storage⟩).2.filter
        (fun ev => ev.isSet) =
      [Event.onSet 0
        (tableCount (restore_filtered_delete_pass exW exT0.storage.entities).1 0)
        exT0.storage.entities.length] := by
  refine ⟨by decide, by decide, ?_⟩
  exact (claim_C4_filtered_merge exW ⟨some 0, [7], some exT0.storage⟩ 0
    exT0.storage rfl rfl (by decide) (by decide)).2.1

/-! ### Snapshot iteration lemmas -/

lemma drop_cons_succ {α : Type} (tables : List α) (i : Nat) (l : α)
    (rest : List α) (h : tables.drop i = l :: rest) :
    tables.drop (i + 1) = rest := by
  have h1 : List.drop 1 (tables.drop i) = tables.drop (i + 1) :=
    List.drop_drop 1 i tables
  rw [h] at h1
  simpa using h1.symm

lemma drainAux_spec (w : World) (tables : List Leaf) :
    ∀ (td : List Leaf) (i fuel : Nat), tables.drop i = td →
      (td.filterMap (fun l => l.table.map (fun t =>
        (⟨t, tableCount w t, l.data.map Data.entities⟩ : SnapYield)))).length
          ≤ fuel →
      snapshotDrainAux w tables fuel i =
        td.filterMap (fun l => l.table.map (fun t =>
          (⟨t, tableCount w t, l.data.map Data.entities⟩ : SnapYield))) := by
  intro td
  induction td with
  | nil =>
      intro i fuel hdrop _
      cases fuel with
      | zero => rfl
      | succ fuel =>
          unfold snapshotDrainAux ecs_snapshot_next snapshotScan
          rw [hdrop]
          rfl
  | cons l rest ih =>
      intro i fuel hdrop hfuel
      cases hl : l.table with
      | some t =>
          have hsc : snapshotScan w tables i =
              some (i + 1, ⟨t, tableCount w t, l.data.map Data.entities⟩) := by
            unfold snapshotScan
            rw [hdrop]
            unfold snapshotScanGo
            rw [hl]
          rw [List.filterMap_cons] at hfuel ⊢
          rw [hl] at hfuel ⊢
          dsimp only [Option.map_some'] at hfuel ⊢
          cases fuel with
          | zero => simp at hfuel
          | succ fuel =>
              unfold snapshotDrainAux ecs_snapshot_next
              rw [hsc]
              dsimp only [Option.map_some']
              rw [ih (i + 1) fuel (drop_cons_succ tables i l rest hdrop)
                (by simp at hfuel; omega)]
      | none =>
          have hfm : (l :: rest).filterMap (fun l => l.table.map (fun t =>
              (⟨t, tableCount w t, l.data.map Data.entities⟩ : SnapYield))) =
              rest.filterMap (fun l => l.table.map (fun t =>
                (⟨t, tableCount w t, l.data.map Data.entities⟩ : SnapYield))) := by
            rw [List.filterMap_cons, hl]
            rfl
          have hsc : snapshotScan w tables i = snapshotScan w tables (i + 1) := by
            unfold snapshotScan
            rw [hdrop, drop_cons_succ tables i l rest hdrop]
            show snapshotScanGo w (l :: rest) i = snapshotScanGo w rest (i + 1)
            simp only [snapshotScanGo, hl]
          cases fuel with
          | zero =>
              rw [hfm] at hfuel ⊢
              have hnil := List.eq_nil_of_length_eq_zero
                (Nat.le_zero.mp hfuel)
              rw [hnil]
              rfl
          | succ fuel =>
              have hrec := ih (i + 1) (fuel + 1)
                (drop_cons_succ tables i l rest hdrop)
                (by rw [hfm] at hfuel; exact hfuel)
              unfold snapshotDrainAux ecs_snapshot_next at hrec ⊢
              rw [hsc, hfm]
              exact hrec

/-- C10: snapshot iteration yields every leaf with a table reference exactly
    once in leaf order, skipping holes; a leaf whose captured data is absent
    is still yielded with a null entity slice; and the row count reported
    for each yield is the referenced table's live row count
    (`ecs_table_count` on the table reference) at iteration time, not the
    number of rows captured in the leaf's data. -/
theorem claim_C10_snapshot_iteration (w : World) (tables : List Leaf) :
    snapshotDrain w ⟨tables, 0⟩ =
      tables.filterMap (fun l => l.table.map (fun t =>
        (⟨t, tableCount w t, l.data.map Data.entities⟩ : SnapYield))) := by
  unfold snapshotDrain
  exact drainAux_spec w tables tables 0 (tables.length - 0) (by simp)
    (le_trans (List.length_filterMap_le _ _) (by simp))

/-! ### Unfiltered restore: slot-local behaviour of the diff loop -/

lemma storeGet_none_of_ge (w : World) (i : Nat) (h : w.store.length ≤ i) :
    storeGet w i = none := by
  unfold storeGet
  rw [List.get?_eq_none.mpr h]
  rfl

lemma storeGet_append_lt (w : World) (x : Option Table) (i : Nat)
    (h : i < w.store.length) :
    storeGet { w with store := w.store ++ [x] } i = storeGet w i := by
  unfold storeGet
  simp only
  rw [List.get?_append h]

lemma storeGet_append_self (w : World) (x : Option Table) :
    storeGet { w with store := w.store ++ [x] } w.store.length = x := by
  unfold storeGet
  simp only
  rw [List.get?_concat_length]
  rfl

lemma flecs_table_clear_data_eq (w : World) (tid : Nat) (tb : Table)
    (h : storeGet w tid = some tb) :
    flecs_table_clear_data w tid =
      (storeSet w tid (some { tb with storage := ⟨[], [], []⟩ }),
       dtorEventsData tb.typeInfo tb.storage.columns) := by
  unfold flecs_table_clear_data
  rw [h]

lemma flecs_table_replace_data_eq (w : World) (tid : Nat) (tb : Table)
    (d : Data) (h : storeGet w tid = some tb) :
    flecs_table_replace_data w tid d =
      (storeSet w tid (some { tb with storage := d }),
       dtorEventsData tb.typeInfo tb.storage.columns) := by
  unfold flecs_table_replace_data
  rw [h]

lemma flecs_table_init_data_eq (w : World) (tid : Nat) (tb : Table)
    (h : storeGet w tid = some tb) :
    flecs_table_init_data w tid =
      storeSet w tid (some { tb with storage := emptyData tb.typeInfo.length }) := by
  unfold flecs_table_init_data
  rw [h]

lemma dtorEventsData_nil (tis : List ColumnInfo) : dtorEventsData tis [] = [] := by
  unfold dtorEventsData
  rw [List.zip_nil_right]
  rfl

lemma flecs_delete_table_empty_eq (w : World) (tid : Nat) (tb : Table)
    (h : storeGet w tid = some tb)
    (hz : tb.storage = ⟨[], [], []⟩) :
    flecs_delete_table w tid = (storeSet w tid none, []) := by
  unfold flecs_delete_table
  simp only [h, hz]
  simp [dtorEventsData_nil, storeSet]

/-- The world-only diff case (C3): a live non-internal table with no leaf
    has its data destructed (destructor events only, no notification) and
    its slot deleted from the store. -/
lemma restore_table_step_world_only (w : World) (leafs : List Leaf) (i : Nat)
    (tb : Table) (hw : storeGet w i = some tb) (hb : tb.builtin = false)
    (hid : tb.id = i) (hleaf : leafAt leafs i = none) :
    restore_table_step w leafs i =
      some ({ w with store := w.store.set i none },
        dtorEventsData tb.typeInfo tb.storage.columns) := by
  have hlt : i < w.store.length := storeGet_some_lt w i tb hw
  unfold restore_table_step
  simp only [hw, hb, Bool.false_eq_true, if_false, hleaf]
  rw [hid, flecs_table_clear_data_eq w i tb hw]
  simp only
  have hcl : storeGet (storeSet w i (some { tb with storage := ⟨[], [], []⟩ })) i =
      some { tb with storage := ⟨[], [], []⟩ } :=
    storeGet_storeSet_self w i _ hlt
  rw [flecs_delete_table_empty_eq _ i _ hcl rfl]
  simp only [List.append_nil]
  unfold storeSet
  rw [List.set_set]

lemma findTableIdx_cons_some (tb : Table) (rest : List (Option Table))
    (ty : List Nat) (base : Nat) :
    findTableIdx (some tb :: rest) ty base =
      if tb.type = ty then some base else findTableIdx rest ty (base + 1) := rfl

lemma findTableIdx_cons_none (rest : List (Option Table)) (ty : List Nat)
    (base : Nat) :
    findTableIdx (none :: rest) ty base = findTableIdx rest ty (base + 1) := rfl

lemma findTableIdx_id_spec (ty : List Nat) :
    ∀ (store : List (Option Table)) (base k : Nat),
      findTableIdx store ty base = some k → base ≤ k ∧
      ∃ tb, store.get? (k - base) = some (some tb) ∧ tb.type = ty := by
  intro store
  induction store with
  | nil => intro base k h; simp [findTableIdx] at h
  | cons t rest ih =>
      intro base k h
      cases t with
      | some tb =>
          rw [findTableIdx_cons_some] at h
          by_cases ht : tb.type = ty
          · rw [if_pos ht] at h
            have hk : k = base := by
              injection h with h'
              omega
            subst hk
            exact ⟨le_refl _, tb, by simp, ht⟩
          · rw [if_neg ht] at h
            obtain ⟨hle, tb', hj, hty⟩ := ih (base + 1) k h
            refine ⟨by omega, tb', ?_, hty⟩
            have hkb : k - base = (k - (base + 1)) + 1 := by omega
            rw [hkb]
            simpa using hj
      | none =>
          rw [findTableIdx_cons_none] at h
          obtain ⟨hle, tb', hj, hty⟩ := ih (base + 1) k h
          refine ⟨by omega, tb', ?_, hty⟩
          have hkb : k - base = (k - (base + 1)) + 1 := by omega
          rw [hkb]
          simpa using hj

lemma find_or_create_spec (w : World) (ty : List Nat) :
    ∃ tb, storeGet (flecs_table_find_or_create w ty).1
        (flecs_table_find_or_create w ty).2 = some tb ∧ tb.type = ty := by
  unfold flecs_table_find_or_create
  cases hf : findTableIdx w.store ty 0 with
  | some k =>
      simp only
      obtain ⟨hle, tb, hj, hty⟩ := findTableIdx_id_spec ty w.store 0 k hf
      refine ⟨tb, ?_, hty⟩
      unfold storeGet
      rw [Nat.sub_zero] at hj
      rw [hj]
      rfl
  | none =>
      simp only
      exact ⟨_, storeGet_append_self w _, rfl⟩

/-- The snapshot-only diff case (C2): with no live table at the leaf's id,
    the step finds or creates a table of the leaf's cloned type and, when
    captured data is present, installs it by ownership transfer. -/
lemma restore_table_step_snapshot_only (w : World) (leafs : List Leaf)
    (i : Nat) (l : Leaf) (hw : storeGet w i = none)
    (hleaf : leafAt leafs i = some l) :
    ∃ w' ev, restore_table_step w leafs i = some (w', ev) ∧
      ∃ k tb, storeGet w' k = some tb ∧ tb.type = l.type ∧
        (∀ d, l.data = some d → tb.storage = d) := by
  unfold restore_table_step
  simp only [hw, hleaf]
  obtain ⟨tb, htb, hty⟩ := find_or_create_spec w l.type
  cases hd : l.data with
  | some d =>
      simp only
      refine ⟨_, _, rfl, (flecs_table_find_or_create w l.type).2,
        { tb with storage := d }, ?_, hty, ?_⟩
      · simp only [htb]
        exact storeGet_storeSet_self _ _ _
          (storeGet_some_lt _ _ tb htb)
      · intro d' hd'
        cases hd'
        rfl
  | none =>
      simp only
      refine ⟨_, _, rfl, (flecs_table_find_or_create w l.type).2, tb, htb, hty, ?_⟩
      intro d' hd'
      exact absurd hd' (by simp)

/-- The both-present identity assertion (C9): when the leaf's table
    reference differs from the live table at the diffed id, the step hits
    the fatal internal-error assertion. -/
lemma restore_table_step_assert_none (w : World) (leafs : List Leaf) (i : Nat)
    (tb : Table) (l : Leaf) (j : Nat)
    (hw : storeGet w i = some tb) (hb : tb.builtin = false)
    (hleaf : leafAt leafs i = some l) (hj : l.table = some j)
    (hne : j ≠ tb.id) :
    restore_table_step w leafs i = none := by
  unfold restore_table_step
  simp only [hw, hb, Bool.false_eq_true, if_false, hleaf, hj]
  rw [if_neg]
  intro hc
  injection hc with hc'
  exact hne hc'

/-- One diff iteration is slot-local in every configuration that satisfies
    `SlotOk`: the step succeeds, modifies only slot `i` of the store (to
    `stepSlot`), and leaves the index and the last issued id untouched. -/
lemma restore_table_step_localized (w : World) (leafs : List Leaf) (i : Nat)
    (hwfi : IdSlot i (storeGet w i))
    (hok : SlotOk leafs i (storeGet w i)) :
    ∃ w' ev, restore_table_step w leafs i = some (w', ev) ∧
      w'.index = w.index ∧ w'.lastId = w.lastId ∧
      w'.store.length = w.store.length ∧
      storeGet w' i = stepSlot leafs i (storeGet w i) ∧
      (∀ j, j ≠ i → storeGet w' j = storeGet w j) := by
  cases hw : storeGet w i with
  | none =>
      cases hleaf : leafAt leafs i with
      | some l =>
          exfalso
          unfold SlotOk at hok
          rw [hw] at hok
          simp only [hleaf] at hok
          obtain ⟨tb, htb, _⟩ := hok
          exact Option.noConfusion htb
      | none =>
          refine ⟨w, [], ?_, rfl, rfl, rfl, ?_, fun j _ => rfl⟩
          · unfold restore_table_step
            simp only [hw, hleaf]
          · rw [hw]
            unfold stepSlot
            rfl
  | some tb =>
      have hid : tb.id = i := by
        unfold IdSlot at hwfi
        rw [hw] at hwfi
        exact hwfi
      have hlt : i < w.store.length := storeGet_some_lt w i tb hw
      by_cases hbt : tb.builtin = true
      · refine ⟨w, [], ?_, rfl, rfl, rfl, ?_, fun j _ => rfl⟩
        · unfold restore_table_step
          simp only [hw, hbt, if_true]
        · rw [hw]
          unfold stepSlot
          simp [hbt]
      · have hbf : tb.builtin = false := by simpa using hbt
        cases hleaf : leafAt leafs i with
        | some l =>
            have hjt : l.table = some tb.id := by
              unfold SlotOk at hok
              rw [hw] at hok
              simp only [hleaf] at hok
              obtain ⟨tb0, htb0, hor⟩ := hok
              injection htb0 with htb0'
              subst htb0'
              rcases hor with hb1 | h2
              · rw [hbf] at hb1
                exact absurd hb1 (by simp)
              · exact h2
            cases hd : l.data with
            | some d =>
                refine ⟨storeSet w i (some { tb with storage := d }),
                  dtorEventsData tb.typeInfo tb.storage.columns, ?_, rfl, rfl,
                  storeSet_length w i _, ?_, ?_⟩
                · unfold restore_table_step
                  simp only [hw, hbf, Bool.false_eq_true, if_false, hleaf, hjt,
                    if_pos, hd]
                  rw [hid, flecs_table_replace_data_eq w i tb d hw]
                  rw [hbf, hid]
                · rw [storeGet_storeSet_self w i _ hlt]
                  unfold stepSlot
                  simp [hbf, hleaf, hd]
                · intro j hj
                  exact storeGet_storeSet_ne w i j _ (fun hh => hj hh.symm)
            | none =>
                refine ⟨storeSet w i
                    (some { tb with storage := emptyData tb.typeInfo.length }),
                  dtorEventsData tb.typeInfo tb.storage.columns, ?_, rfl, rfl,
                  ?_, ?_, ?_⟩
                · unfold restore_table_step
                  simp only [hw, hbf, Bool.false_eq_true, if_false, hleaf, hjt,
                    if_pos, hd]
                  rw [hid, flecs_table_clear_data_eq w i tb hw]
                  simp only
                  rw [flecs_table_init_data_eq _ i
                    { tb with storage := ⟨[], [], []⟩ }
                    (storeGet_storeSet_self w i _ hlt)]
                  unfold storeSet
                  simp only
                  rw [List.set_set]
                  rw [hbf, hid]
                · rw [storeSet_length]
                · rw [storeGet_storeSet_self w i _ hlt]
                  unfold stepSlot
                  simp [hbf, hleaf, hd]
                · intro j hj
                  exact storeGet_storeSet_ne w i j _ (fun hh => hj hh.symm)
        | none =>
            refine ⟨{ w with store := w.store.set i none },
              dtorEventsData tb.typeInfo tb.storage.columns,
              restore_table_step_world_only w leafs i tb hw hbf hid hleaf,
              rfl, rfl, by simp, ?_, ?_⟩
            · show storeGet (storeSet w i none) i = _
              rw [storeGet_storeSet_self w i _ hlt]
              unfold stepSlot
              simp [hbf, hleaf]
            · intro j hj
              show storeGet (storeSet w i none) j = _
              exact storeGet_storeSet_ne w i j _ (fun hh => hj hh.symm)

/-- The diff loop is slot-local over any duplicate-free id list whose slots
    all satisfy `SlotOk`: it succeeds, finalizes exactly the listed slots
    and leaves everything else (index, last id, other slots) unchanged. -/
lemma restoreLoopGo_localized (leafs : List Leaf) :
    ∀ (idxs : List Nat) (w : World) (ev : List Event),
      idxs.Nodup →
      (∀ i ∈ idxs, IdSlot i (storeGet w i)) →
      (∀ i ∈ idxs, SlotOk leafs i (storeGet w i)) →
      ∃ w' ev', restoreLoopGo leafs idxs w ev = some (w', ev') ∧
        w'.index = w.index ∧ w'.lastId = w.lastId ∧
        w'.store.length = w.store.length ∧
        (∀ j ∈ idxs, storeGet w' j = stepSlot leafs j (storeGet w j)) ∧
        (∀ j, j ∉ idxs → storeGet w' j = storeGet w j) := by
  intro idxs
  induction idxs with
  | nil =>
      intro w ev _ _ _
      exact ⟨w, ev, rfl, rfl, rfl, rfl, by simp, fun j _ => rfl⟩
  | cons i rest ih =>
      intro w ev hnd hids hoks
      obtain ⟨w1, ev1, hstep, hI, hL, hLen, hSelf, hFrame⟩ :=
        restore_table_step_localized w leafs i (hids i (by simp))
          (hoks i (by simp))
      have hninr : i ∉ rest := (List.nodup_cons.mp hnd).1
      have hne_of_mem : ∀ k ∈ rest, k ≠ i := by
        intro k hk he
        exact hninr (he ▸ hk)
      have hrest_ids : ∀ k ∈ rest, IdSlot k (storeGet w1 k) := by
        intro k hk
        rw [hFrame k (hne_of_mem k hk)]
        exact hids k (List.mem_cons_of_mem _ hk)
      have hrest_oks : ∀ k ∈ rest, SlotOk leafs k (storeGet w1 k) := by
        intro k hk
        rw [hFrame k (hne_of_mem k hk)]
        exact hoks k (List.mem_cons_of_mem _ hk)
      obtain ⟨w', ev', hloop, hI', hL', hLen', hSelf', hFrame'⟩ :=
        ih w1 (ev ++ ev1) (List.nodup_cons.mp hnd).2 hrest_ids hrest_oks
      refine ⟨w', ev', ?_, hI'.trans hI, hL'.trans hL, hLen'.trans hLen, ?_, ?_⟩
      · unfold restoreLoopGo
        simp only [hstep]
        exact hloop
      · intro j hj
        rcases List.mem_cons.mp hj with he | hr
        · subst he
          rw [hFrame' j hninr, hSelf]
        · rw [hSelf' j hr, hFrame j (hne_of_mem j hr)]
      · intro j hj
        have hji : j ≠ i := by
          intro he
          exact hj (by rw [he]; exact List.mem_cons_self i rest)
        have hjr : j ∉ rest := fun hr => hj (List.mem_cons_of_mem _ hr)
        rw [hFrame' j hjr, hFrame j hji]

/-! ### Preservation of the id-identity invariant -/

lemma WfIds_of_store_eq (w w' : World) (h : w'.store = w.store)
    (hw : WfIds w) : WfIds w' := by
  intro j hj
  rw [h] at hj
  have h2 := hw j hj
  unfold storeGet at h2 ⊢
  rw [h]
  exact h2

lemma WfIds_storeSet_keep (w : World) (tid : Nat) (tb tb' : Table)
    (h : storeGet w tid = some tb) (hid : tb'.id = tb.id) (hw : WfIds w) :
    WfIds (storeSet w tid (some tb')) := by
  intro j hj
  rw [storeSet_length] at hj
  by_cases hji : j = tid
  · subst hji
    rw [storeGet_storeSet_self w j _ (storeGet_some_lt w j tb h)]
    show tb'.id = j
    have h2 := hw j hj
    rw [h] at h2
    rw [hid]
    exact h2
  · rw [storeGet_storeSet_ne w tid j _ (fun hh => hji hh.symm)]
    exact hw j hj

lemma WfIds_storeSet_none (w : World) (tid : Nat) (hw : WfIds w) :
    WfIds (storeSet w tid none) := by
  intro j hj
  rw [storeSet_length] at hj
  by_cases hji : j = tid
  · subst hji
    rw [storeGet_storeSet_self w j _ hj]
    trivial
  · rw [storeGet_storeSet_ne w tid j _ (fun hh => hji hh.symm)]
    exact hw j hj

lemma WfIds_append_keep (w : World) (x : Option Table)
    (hx : ∀ tb, x = some tb → tb.id = w.store.length) (hw : WfIds w) :
    WfIds { w with store := w.store ++ [x] } := by
  intro j hj
  simp only [List.length_append, List.length_singleton] at hj
  by_cases hji : j = w.store.length
  · subst hji
    rw [storeGet_append_self]
    cases hxc : x with
    | some tb =>
        show tb.id = w.store.length
        exact hx tb hxc
    | none => trivial
  · have hlt : j < w.store.length := by omega
    rw [storeGet_append_lt w x j hlt]
    exact hw j hlt

lemma WfIds_find_or_create (w : World) (ty : List Nat) (hw : WfIds w) :
    WfIds (flecs_table_find_or_create w ty).1 := by
  unfold flecs_table_find_or_create
  cases hf : findTableIdx w.store ty 0 with
  | some k => exact hw
  | none =>
      simp only
      apply WfIds_append_keep w _ ?_ hw
      rintro tb h
      cases h
      rfl

lemma WfIds_flecs_delete_table (w : World) (tid : Nat) (hw : WfIds w) :
    WfIds (flecs_delete_table w tid).1 := by
  unfold flecs_delete_table
  cases h : storeGet w tid with
  | none => exact hw
  | some tb =>
      simp only
      exact WfIds_of_store_eq _ (storeSet w tid none) rfl
        (WfIds_storeSet_none w tid hw)

lemma IdSlot_of_WfIds (w : World) (hw : WfIds w) (i : Nat) :
    IdSlot i (storeGet w i) := by
  by_cases hlt : i < w.store.length
  · exact hw i hlt
  · rw [storeGet_none_of_ge w i (Nat.le_of_not_lt hlt)]
    trivial

lemma restore_table_step_WfIds (w : World) (leafs : List Leaf) (i : Nat)
    (w' : World) (ev : List Event)
    (hstep : restore_table_step w leafs i = some (w', ev)) (hw : WfIds w) :
    WfIds w' := by
  unfold restore_table_step at hstep
  cases hwi : storeGet w i with
  | none =>
      simp only [hwi] at hstep
      cases hleaf : leafAt leafs i with
      | some l =>
          simp only [hleaf] at hstep
          obtain ⟨tbf, htbf, _⟩ := find_or_create_spec w l.type
          cases hd : l.data with
          | some d =>
              simp only [hd] at hstep
              rw [flecs_table_replace_data_eq _ _ tbf d htbf] at hstep
              injection hstep with h1
              rw [Prod.mk.injEq] at h1
              obtain ⟨hW, _⟩ := h1
              rw [← hW]
              exact WfIds_storeSet_keep _ _ tbf _ htbf rfl
                (WfIds_find_or_create w l.type hw)
          | none =>
              simp only [hd] at hstep
              injection hstep with h1
              rw [Prod.mk.injEq] at h1
              obtain ⟨hW, _⟩ := h1
              rw [← hW]
              exact WfIds_find_or_create w l.type hw
      | none =>
          simp only [hleaf] at hstep
          injection hstep with h1
          rw [Prod.mk.injEq] at h1
          obtain ⟨hW, _⟩ := h1
          rw [← hW]
          exact hw
  | some tb =>
      have hid : tb.id = i := by
        have h2 := IdSlot_of_WfIds w hw i
        rw [hwi] at h2
        exact h2
      simp only [hwi] at hstep
      by_cases hb : tb.builtin = true
      · simp only [hb, if_true] at hstep
        injection hstep with h1
        rw [Prod.mk.injEq] at h1
        obtain ⟨hW, _⟩ := h1
        rw [← hW]
        exact hw
      · have hbf : tb.builtin = false := by simpa using hb
        simp only [hbf, Bool.false_eq_true, if_false] at hstep
        cases hleaf : leafAt leafs i with
        | some l =>
            simp only [hleaf] at hstep
            by_cases hjt : l.table = some tb.id
            · rw [if_pos hjt] at hstep
              cases hd : l.data with
              | some d =>
                  simp only [hd] at hstep
                  rw [hid, flecs_table_replace_data_eq w i tb d hwi] at hstep
                  injection hstep with h1
                  rw [Prod.mk.injEq] at h1
                  obtain ⟨hW, _⟩ := h1
                  rw [← hW]
                  exact WfIds_storeSet_keep w i tb _ hwi rfl hw
              | none =>
                  simp only [hd] at hstep
                  rw [hid, flecs_table_clear_data_eq w i tb hwi] at hstep
                  simp only at hstep
                  rw [flecs_table_init_data_eq _ i
                    { tb with storage := ⟨[], [], []⟩ }
                    (storeGet_storeSet_self w i _
                      (storeGet_some_lt w i tb hwi))] at hstep
                  injection hstep with h1
                  rw [Prod.mk.injEq] at h1
                  obtain ⟨hW, _⟩ := h1
                  rw [← hW]
                  exact WfIds_storeSet_keep _ i
                    { tb with storage := ⟨[], [], []⟩ } _
                    (storeGet_storeSet_self w i _
                      (storeGet_some_lt w i tb hwi)) rfl
                    (WfIds_storeSet_keep w i tb _ hwi rfl hw)
            · rw [if_neg hjt] at hstep
              exact Option.noConfusion hstep
        | none =>
            simp only [hleaf] at hstep
            rw [hid, flecs_table_clear_data_eq w i tb hwi] at hstep
            simp only at hstep
            rw [flecs_delete_table_empty_eq _ i
              { tb with storage := ⟨[], [], []⟩ }
              (storeGet_storeSet_self w i _
                (storeGet_some_lt w i tb hwi)) rfl] at hstep
            injection hstep with h1
            rw [Prod.mk.injEq] at h1
            obtain ⟨hW, _⟩ := h1
            rw [← hW]
            exact WfIds_storeSet_none _ i
              (WfIds_storeSet_keep w i tb _ hwi rfl hw)

lemma restore_table_step_ne_none (w : World) (leafs : List Leaf) (i : Nat)
    (hw : WfIds w) (hid : ∀ l, leafAt leafs i = some l → l.table = some i) :
    ∃ out, restore_table_step w leafs i = some out := by
  cases hwi : storeGet w i with
  | none =>
      unfold restore_table_step
      simp only [hwi]
      cases hleaf : leafAt leafs i with
      | some l =>
          simp only [hleaf]
          cases l.data <;> exact ⟨_, rfl⟩
      | none =>
          simp only [hleaf]
          exact ⟨_, rfl⟩
  | some tb =>
      have htid : tb.id = i := by
        have h2 := IdSlot_of_WfIds w hw i
        rw [hwi] at h2
        exact h2
      unfold restore_table_step
      simp only [hwi]
      by_cases hb : tb.builtin = true
      · simp only [hb, if_true]
        exact ⟨_, rfl⟩
      · have hbf : tb.builtin = false := by simpa using hb
        simp only [hbf, Bool.false_eq_true, if_false]
        cases hleaf : leafAt leafs i with
        | some l =>
            simp only [hleaf]
            have hlt : l.table = some tb.id := by
              rw [htid]
              exact hid l hleaf
            rw [if_pos hlt]
            cases l.data <;> exact ⟨_, rfl⟩
        | none =>
            simp only [hleaf]
            exact ⟨_, rfl⟩

lemma restoreLoopGo_ne_none (leafs : List Leaf)
    (hidid : ∀ i l, leafAt leafs i = some l → l.table = some i) :
    ∀ (idxs : List Nat) (w : World) (ev : List Event), WfIds w →
      ∃ out, restoreLoopGo leafs idxs w ev = some out := by
  intro idxs
  induction idxs with
  | nil => intro w ev _; exact ⟨_, rfl⟩
  | cons i rest ih =>
      intro w ev hw
      obtain ⟨out, hstep⟩ := restore_table_step_ne_none w leafs i hw (hidid i)
      obtain ⟨w1, ev1⟩ := out
      unfold restoreLoopGo
      simp only [hstep]
      exact ih w1 (ev ++ ev1)
        (restore_table_step_WfIds w leafs i w1 ev1 hstep hw)

lemma IdIdentity_leafAt (leafs : List Leaf) (h : IdIdentity leafs) :
    ∀ i l, leafAt leafs i = some l → l.table = some i := by
  intro i l hl
  unfold leafAt at hl
  cases hg : leafs.get? i with
  | none =>
      simp only [hg] at hl
      exact Option.noConfusion hl
  | some l0 =>
      simp only [hg] at hl
      by_cases hs : l0.table.isSome
      · rw [if_pos hs] at hl
        injection hl with hl'
        have hi : i < leafs.length := (List.get?_eq_some.mp hg).1
        have h2 := h i hi
        have hgd : leafs.getD i Leaf.zero = l0 := by
          show (leafs.get? i).getD Leaf.zero = l0
          rw [hg]
          rfl
        rw [hgd] at h2
        unfold LeafIdOk at h2
        rw [← hl']
        cases ht : l0.table with
        | some k =>
            simp only [ht] at h2
            rw [h2]
        | none =>
            rw [ht] at hs
            simp at hs
      · rw [if_neg hs] at hl
        exact Option.noConfusion hl

/-- C3: during unfiltered restore, the world-only diff case (live
    non-internal table, no snapshot leaf with a table reference) discards
    the table's data emitting only component-destructor events — never a
    removal notification — and then deletes the table object from the
    store, leaving a hole at its id. -/
theorem claim_C3_world_only_discard (w : World) (leafs : List Leaf) (i : Nat)
    (tb : Table) (hw : storeGet w i = some tb) (hb : tb.builtin = false)
    (hid : tb.id = i) (hleaf : leafAt leafs i = none) :
    restore_table_step w leafs i =
      some ({ w with store := w.store.set i none },
        dtorEventsData tb.typeInfo tb.storage.columns) ∧
    storeGet ({ w with store := w.store.set i none } : World) i = none ∧
    (∀ ev ∈ dtorEventsData tb.typeInfo tb.storage.columns,
      ev.isRemove = false ∧ ev.isSet = false) := by
  refine ⟨restore_table_step_world_only w leafs i tb hw hb hid hleaf, ?_,
    dtorEventsData_shape _ _⟩
  show storeGet (storeSet w i none) i = none
  exact storeGet_storeSet_self w i none (storeGet_some_lt w i tb hw)

/-- Witness for C3: at the concrete world `exW`, with no leaf for table 0,
    the diff step destructs the two component values (two destructor
    events, no notification) and deletes the table. -/
theorem claim_C3_witness :
    storeGet exW 0 = some exT0 ∧ leafAt [] 0 = none ∧
    restore_table_step exW [] 0 =
      some ({ exW with store := exW.store.set 0 none },
        dtorEventsData exT0.typeInfo exT0.storage.columns) ∧
    dtorEventsData exT0.typeInfo exT0.storage.columns =
      [Event.dtor 7 10, Event.dtor 7 20] := by
  refine ⟨by decide, rfl, ?_, by decide⟩
  exact (claim_C3_world_only_discard exW [] 0 exT0 (by decide) rfl rfl rfl).1

/-- C2: the diff pass of unfiltered restore runs over table ids 0 through
    `flecs_sparse_last_id` of the live store, which — whenever the store
    has grown at least to the snapshot's leaf count, as monotone table ids
    guarantee — equals the greater of the current highest table id and the
    leaf count minus one; in particular every leaf id is in the processed
    range, and a snapshot-only leaf (no live table at its id) is processed
    by recreating a table of the leaf's type and installing its captured
    data. -/
theorem claim_C2_diff_range (w : World) (s : Snapshot)
    (hle : s.tables.length ≤ w.store.length) :
    List.range (flecs_sparse_last_id w.store + 1) =
      List.range
        (max (flecs_sparse_last_id w.store) (s.tables.length - 1) + 1) ∧
    (∀ j, j < s.tables.length →
      j ∈ List.range (flecs_sparse_last_id w.store + 1)) ∧
    (∀ j l, storeGet w j = none → leafAt s.tables j = some l →
      ∃ w' ev, restore_table_step w s.tables j = some (w', ev) ∧
        ∃ k tb, storeGet w' k = some tb ∧ tb.type = l.type ∧
          (∀ d, l.data = some d → tb.storage = d)) := by
  refine ⟨?_, ?_, ?_⟩
  · congr 1
    unfold flecs_sparse_last_id
    omega
  · intro j hj
    rw [List.mem_range]
    unfold flecs_sparse_last_id
    omega
  · intro j l hwj hleaf
    exact restore_table_step_snapshot_only w s.tables j l hwj hleaf

/-- Witness for C2: in a world whose table 1 was deleted after capture, the
    leaf at id 1 — beyond the highest live table id 0 — is inside the
    processed range and its diff step succeeds, recreating the table. -/
theorem claim_C2_witness :
    leafs2c.length ≤ w2c.store.length ∧
    1 ∈ List.range (flecs_sparse_last_id w2c.store + 1) ∧
    (restore_table_step w2c leafs2c 1).isSome = true := by
  refine ⟨by decide, ?_, ?_⟩
  · exact (claim_C2_diff_range w2c ⟨some [], leafs2c, 0⟩ (by decide)).2.1 1
      (by decide)
  · obtain ⟨w', ev, hstep, _⟩ :=
      (claim_C2_diff_range w2c ⟨some [], leafs2c, 0⟩ (by decide)).2.2 1
        ⟨some 1, [9], none⟩ (by decide) (by decide)
    rw [hstep]
    rfl

/-- C9: in the both-present diff case, a leaf whose stored table reference
    differs from the live table at that id makes the step abort through the
    fatal internal-error assertion; and under the id-identity precondition
    (every leaf references its own id, every live table sits at its id) the
    assertion never fires: unfiltered restore never aborts. -/
theorem claim_C9_both_present_assert :
    (∀ (w : World) (leafs : List Leaf) (i : Nat) (tb : Table) (l : Leaf)
        (j : Nat),
      storeGet w i = some tb → tb.builtin = false →
      leafAt leafs i = some l → l.table = some j → j ≠ tb.id →
      restore_table_step w leafs i = none) ∧
    (∀ (w : World) (ei : EntityIndex) (s : Snapshot), WfIds w →
      IdIdentity s.tables → restore_unfiltered w ei s ≠ none) := by
  constructor
  · intro w leafs i tb l j h1 h2 h3 h4 h5
    exact restore_table_step_assert_none w leafs i tb l j h1 h2 h3 h4 h5
  · intro w ei s hw hid hcon
    unfold restore_unfiltered at hcon
    obtain ⟨out, hloop⟩ := restoreLoopGo_ne_none s.tables
      (IdIdentity_leafAt s.tables hid) (List.range (flecs_sparse_last_id
        ({ w with index := ei, lastId := s.last_id } : World).store + 1))
      { w with index := ei, lastId := s.last_id } []
      (WfIds_of_store_eq _ w rfl hw)
    obtain ⟨w1, ev1⟩ := out
    simp only [hloop] at hcon
    exact Option.noConfusion hcon

/-- Witness for C9: a leaf referencing table 5 while table 0 is live at its
    slot aborts the step, and restoring a freshly taken full snapshot of
    `exW` does not abort. -/
theorem claim_C9_witness :
    restore_table_step exW [⟨some 5, [7], none⟩] 0 = none ∧
    restore_unfiltered exW exW.index (ecs_snapshot_take exW) ≠ none := by
  constructor
  · exact claim_C9_both_present_assert.1 exW [⟨some 5, [7], none⟩] 0 exT0
      ⟨some 5, [7], none⟩ 5 (by decide) rfl rfl rfl (by decide)
  · exact claim_C9_both_present_assert.2 exW exW.index
      (ecs_snapshot_take exW) (by decide) (by decide)

/-! ### Round trip: the store invariant across intervening mutations -/

lemma TableAgree_refl (t : Option Table) : TableAgree t t := by
  cases t with
  | some tb => exact ⟨rfl, rfl, rfl, rfl⟩
  | none => trivial

lemma Inv_refl (W : World) : Inv W W :=
  ⟨le_refl _, fun _ _ => TableAgree_refl _⟩

lemma Inv_of_store_eq (W w w' : World) (h : w'.store = w.store)
    (hI : Inv W w) : Inv W w' := by
  obtain ⟨h1, h2⟩ := hI
  refine ⟨by rw [h]; exact h1, ?_⟩
  intro i hi
  have heq : storeGet w' i = storeGet w i := by
    unfold storeGet
    rw [h]
  rw [heq]
  exact h2 i hi

lemma Inv_storeSet_storage (W w : World) (tid : Nat) (tb : Table) (d : Data)
    (h : storeGet w tid = some tb) (hI : Inv W w) :
    Inv W (storeSet w tid (some { tb with storage := d })) := by
  obtain ⟨h1, h2⟩ := hI
  refine ⟨by rw [storeSet_length]; exact h1, ?_⟩
  intro i hi
  by_cases hit : i = tid
  · subst hit
    rw [storeGet_storeSet_self w i _ (storeGet_some_lt w i tb h)]
    have h3 := h2 i hi
    rw [h] at h3
    cases hW : storeGet W i with
    | some tb0 =>
        rw [hW] at h3
        exact h3
    | none =>
        rw [hW] at h3
        exact h3.elim
  · rw [storeGet_storeSet_ne w tid i _ (fun hh => hit hh.symm)]
    exact h2 i hi

lemma Inv_append (W w : World) (x : Option Table) (hI : Inv W w) :
    Inv W { w with store := w.store ++ [x] } := by
  obtain ⟨h1, h2⟩ := hI
  refine ⟨by simp only [List.length_append, List.length_singleton]; omega, ?_⟩
  intro i hi
  rw [storeGet_append_lt w x i (lt_of_lt_of_le hi h1)]
  exact h2 i hi

lemma Inv_find_or_create (W w : World) (ty : List Nat) (hI : Inv W w) :
    Inv W (flecs_table_find_or_create w ty).1 := by
  unfold flecs_table_find_or_create
  cases hf : findTableIdx w.store ty 0 with
  | some k => exact hI
  | none =>
      simp only
      exact Inv_append W w _ hI

lemma Inv_delete_table (W w : World) (tid : Nat) (hI : Inv W w)
    (hok : W.store.length ≤ tid ∨ storeGet W tid = none) :
    Inv W (flecs_delete_table w tid).1 := by
  cases h : storeGet w tid with
  | none =>
      unfold flecs_delete_table
      simp only [h]
      exact hI
  | some tb =>
      unfold flecs_delete_table
      simp only [h]
      apply Inv_of_store_eq W (storeSet w tid none) _ rfl
      obtain ⟨h1, h2⟩ := hI
      refine ⟨by rw [storeSet_length]; exact h1, ?_⟩
      intro i hi
      by_cases hit : i = tid
      · subst hit
        have hWn : storeGet W i = none := by
          rcases hok with ho | ho
          · omega
          · exact ho
        have h3 := h2 i hi
        rw [hWn, h] at h3
        exact h3.elim
      · rw [storeGet_storeSet_ne w tid i _ (fun hh => hit hh.symm)]
        exact h2 i hi

lemma Inv_flecs_table_delete_row (W w : World) (tid row : Nat) (b : Bool)
    (hI : Inv W w) : Inv W (flecs_table_delete w tid row b).1 := by
  cases h : storeGet w tid with
  | none =>
      unfold flecs_table_delete
      simp only [h]
      exact hI
  | some tb =>
      unfold flecs_table_delete
      simp only [h]
      by_cases hr : row < tb.storage.entities.length
      · rw [if_pos hr]
        dsimp only
        have hbase := Inv_storeSet_storage W w tid tb
          ⟨removeSwapE tb.storage.entities row,
           removeSwapN tb.storage.record_ptrs row,
           tb.storage.columns.map (fun c => removeSwap c row)⟩ h hI
        split
        · split
          · exact Inv_of_store_eq W _ _ rfl hbase
          · exact hbase
        · exact hbase
      · rw [if_neg hr]
        exact hI

lemma Inv_applyOp (W w : World) (op : Op) (hI : Inv W w)
    (hok : opOk W op) : Inv W (applyOp w op) := by
  cases op with
  | newTable ty => exact Inv_find_or_create W w ty hI
  | deleteTable tid => exact Inv_delete_table W w tid hI hok
  | newEntity tid vals =>
      simp only [applyOp]
      cases h : storeGet w tid with
      | none => exact hI
      | some tb =>
          simp only [h]
          by_cases hv : vals.length = tb.storage.columns.length
          · rw [if_pos hv]
            exact Inv_of_store_eq W _ _ rfl
              (Inv_storeSet_storage W w tid tb _ h hI)
          · rw [if_neg hv]
            exact hI
  | deleteEntity e =>
      simp only [applyOp]
      cases hg : ecs_eis_get w e with
      | none => exact hI
      | some r =>
          simp only [hg]
          apply Inv_of_store_eq W _ _ rfl
          cases ht : r.table with
          | some tid =>
              simp only
              exact Inv_flecs_table_delete_row W w tid _ true hI
          | none => exact hI
  | setComp e col v =>
      simp only [applyOp]
      cases hg : ecs_eis_get w e with
      | none => exact hI
      | some r =>
          simp only [hg]
          cases ht : r.table with
          | none => exact hI
          | some tid =>
              simp only
              cases h : storeGet w tid with
              | none => exact hI
              | some tb =>
                  simp only [h]
                  exact Inv_storeSet_storage W w tid tb _ h hI

lemma Inv_foldl (W : World) (ops : List Op) :
    ∀ (w : World), Inv W w → (∀ op ∈ ops, opOk W op) →
      Inv W (ops.foldl applyOp w) := by
  induction ops with
  | nil => intro w hI _; exact hI
  | cons op rest ih =>
      intro w hI hok
      rw [List.foldl_cons]
      exact ih (applyOp w op)
        (Inv_applyOp W w op hI (hok op (by simp)))
        (fun o ho => hok o (List.mem_cons_of_mem _ ho))

lemma Inv_applyOps (W : World) (ops : List Op) (hok : OpsOk W ops) :
    Inv W (applyOps W ops) :=
  Inv_foldl W ops W (Inv_refl W) hok

lemma WfTables_WfIds (W : World) (h : WfTables W) : WfIds W := by
  intro i hi
  have h2 := h i hi
  cases hs : storeGet W i with
  | some tb =>
      rw [hs] at h2
      show tb.id = i
      exact (h2 : WfTable i tb).1
  | none => trivial

lemma WfIds_flecs_table_delete_row (w : World) (tid row : Nat) (b : Bool)
    (hw : WfIds w) : WfIds (flecs_table_delete w tid row b).1 := by
  cases h : storeGet w tid with
  | none =>
      unfold flecs_table_delete
      simp only [h]
      exact hw
  | some tb =>
      unfold flecs_table_delete
      simp only [h]
      by_cases hr : row < tb.storage.entities.length
      · rw [if_pos hr]
        dsimp only
        have hbase := WfIds_storeSet_keep w tid tb
          { tb with storage :=
            ⟨removeSwapE tb.storage.entities row,
             removeSwapN tb.storage.record_ptrs row,
             tb.storage.columns.map (fun c => removeSwap c row)⟩ } h rfl hw
        split
        · split
          · exact WfIds_of_store_eq _ _ rfl hbase
          · exact hbase
        · exact hbase
      · rw [if_neg hr]
        exact hw

lemma WfIds_applyOp (w : World) (op : Op) (hw : WfIds w) :
    WfIds (applyOp w op) := by
  cases op with
  | newTable ty => exact WfIds_find_or_create w ty hw
  | deleteTable tid => exact WfIds_flecs_delete_table w tid hw
  | newEntity tid vals =>
      simp only [applyOp]
      cases h : storeGet w tid with
      | none => exact hw
      | some tb =>
          simp only [h]
          by_cases hv : vals.length = tb.storage.columns.length
          · rw [if_pos hv]
            exact WfIds_of_store_eq _ _ rfl
              (WfIds_storeSet_keep w tid tb _ h rfl hw)
          · rw [if_neg hv]
            exact hw
  | deleteEntity e =>
      simp only [applyOp]
      cases hg : ecs_eis_get w e with
      | none => exact hw
      | some r =>
          simp only [hg]
          apply WfIds_of_store_eq _ _ rfl
          cases ht : r.table with
          | some tid =>
              simp only
              exact WfIds_flecs_table_delete_row w tid _ true hw
          | none => exact hw
  | setComp e col v =>
      simp only [applyOp]
      cases hg : ecs_eis_get w e with
      | none => exact hw
      | some r =>
          simp only [hg]
          cases ht : r.table with
          | none => exact hw
          | some tid =>
              simp only
              cases h : storeGet w tid with
              | none => exact hw
              | some tb =>
                  simp only [h]
                  exact WfIds_storeSet_keep w tid tb _ h rfl hw

lemma WfIds_foldl (ops : List Op) :
    ∀ (w : World), WfIds w → WfIds (ops.foldl applyOp w) := by
  induction ops with
  | nil => intro w hw; exact hw
  | cons op rest ih =>
      intro w hw
      rw [List.foldl_cons]
      exact ih (applyOp w op) (WfIds_applyOp w op hw)

lemma WfIds_applyOps (W : World) (ops : List Op) (hw : WfIds W) :
    WfIds (applyOps W ops) :=
  WfIds_foldl ops W hw

/-! ### Round trip: the capture shape and data fidelity -/

lemma duplicate_data_none_iff (tb : Table) (main : Data) :
    duplicate_data tb main = none ↔ tb.storage.entities.length = 0 := by
  unfold duplicate_data
  by_cases hz : tb.storage.entities.length = 0 <;> simp [hz]

lemma duplicate_data_self_some (tb : Table)
    (hcols : tb.storage.columns.length = tb.typeInfo.length)
    (hne : tb.storage.entities.length ≠ 0) :
    duplicate_data tb tb.storage = some tb.storage := by
  unfold duplicate_data
  rw [if_neg hne]
  have hmap : (tb.typeInfo.zip tb.storage.columns).map
      (fun p => if p.1.hasCopy then p.2 else p.2) = tb.storage.columns := by
    have h1 : (tb.typeInfo.zip tb.storage.columns).map
        (fun p => if p.1.hasCopy then p.2 else p.2) =
        (tb.typeInfo.zip tb.storage.columns).map Prod.snd := by
      apply List.map_congr_left
      intro p _
      exact ite_self p.2
    rw [h1]
    exact List.map_snd_zip _ _ (le_of_eq hcols)
  rw [hmap]

lemma storage_empty_of_count_zero (tb : Table)
    (hcols : tb.storage.columns.length = tb.typeInfo.length)
    (hrp : tb.storage.record_ptrs.length = tb.storage.entities.length)
    (hcl : ∀ c ∈ tb.storage.columns, c.length = tb.storage.entities.length)
    (hz : tb.storage.entities.length = 0) :
    tb.storage = emptyData tb.typeInfo.length := by
  have he : tb.storage.entities = [] := List.length_eq_zero.mp hz
  have hr : tb.storage.record_ptrs = [] := by
    apply List.length_eq_zero.mp
    rw [hrp, hz]
  have hc : tb.storage.columns = List.replicate tb.typeInfo.length [] := by
    rw [← hcols]
    apply List.eq_replicate.mpr
    refine ⟨rfl, ?_⟩
    intro c hcmem
    apply List.length_eq_zero.mp
    rw [hcl c hcmem, hz]
  have heta : tb.storage =
      ⟨tb.storage.entities, tb.storage.record_ptrs, tb.storage.columns⟩ := rfl
  rw [heta, he, hr, hc]
  rfl

lemma leafAt_take_live (W : World) (hwf : WfIds W) (i : Nat) (tb : Table)
    (hs : storeGet W i = some tb) (hb : tb.builtin = false) :
    leafAt (ecs_snapshot_take W).tables i =
      some ⟨some i, tb.type, duplicate_data tb tb.storage⟩ := by
  have hget := snapshot_create_get? W W.index none hwf i
  show leafAt (snapshot_create W W.index none).tables i = _
  unfold leafAt
  rw [hget]
  have hlnb : liveNonBuiltin W i = true := liveNonBuiltin_of_some W i tb hs hb
  have hmem : i ∈ capturedIds W none := by
    unfold capturedIds
    rw [List.mem_range]
    have hlt := storeGet_some_lt W i tb hs
    unfold flecs_sparse_last_id
    omega
  rw [if_pos ⟨hmem, hlnb⟩]
  unfold captureLeaf
  rw [hs]
  simp [hb]

lemma leafAt_take_none (W : World) (hwf : WfIds W) (i : Nat)
    (hs : liveNonBuiltin W i = false) :
    leafAt (ecs_snapshot_take W).tables i = none := by
  have hget := snapshot_create_get? W W.index none hwf i
  show leafAt (snapshot_create W W.index none).tables i = none
  unfold leafAt
  rw [hget]
  rw [hs]
  simp only [Bool.false_eq_true, and_false, if_false]
  by_cases hi : i < flecs_sparse_last_id W.store + 1
  · rw [if_pos hi]
    rfl
  · rw [if_neg hi]

lemma liveNonBuiltin_none (W : World) (i : Nat) (h : storeGet W i = none) :
    liveNonBuiltin W i = false := by
  unfold liveNonBuiltin
  rw [h]

lemma liveNonBuiltin_builtin (W : World) (i : Nat) (tb : Table)
    (h : storeGet W i = some tb) (hb : tb.builtin = true) :
    liveNonBuiltin W i = false := by
  unfold liveNonBuiltin
  rw [h]
  simp [hb]

lemma stepSlot_some_eq (leafs : List Leaf) (i : Nat) (tb : Table) :
    stepSlot leafs i (some tb) =
      if tb.builtin then some tb
      else
        match leafAt leafs i with
        | some l =>
            match l.data with
            | some d => some { tb with storage := d }
            | none => some { tb with storage := emptyData tb.typeInfo.length }
        | none => none := rfl

lemma take_entity_index (W : World) :
    (ecs_snapshot_take W).entity_index = some W.index := by
  show (snapshot_create W W.index none).entity_index = some W.index
  unfold snapshot_create
  simp only
  rw [captureFold_entity_index]
  rfl

lemma restore_unfiltered_eq (w : World) (ei : EntityIndex) (s : Snapshot) :
    restore_unfiltered w ei s =
      match restoreLoopGo s.tables
          (List.range (flecs_sparse_last_id w.store + 1))
          (restoreStart w ei s.last_id) [] with
      | some (w1, ev) => some (w1, ev ++ onSetPass w1)
      | none => none := rfl

/-- The per-slot observable outcome of the diff: a slot finalized by
    `stepSlot` observes exactly like the capture world's slot, given the
    store invariant and the capture world's wellformedness. -/
lemma stepSlot_obs (W w : World) (hwf : WfTables W) (hwfI : WfIds W)
    (hagree : ∀ i, i < W.store.length →
      TableAgree (storeGet W i) (storeGet w i))
    (i : Nat) (w1 : World)
    (hslot : storeGet w1 i =
      stepSlot (ecs_snapshot_take W).tables i (storeGet w i)) :
    obsTableAt w1 i = obsTableAt W i := by
  unfold obsTableAt
  rw [hslot]
  cases hsW : storeGet W i with
  | some tb =>
      have hiW := storeGet_some_lt W i tb hsW
      have hag := hagree i hiW
      rw [hsW] at hag
      cases hsw : storeGet w i with
      | none => rw [hsw] at hag; exact hag.elim
      | some tb' =>
          rw [hsw] at hag
          obtain ⟨hagid, hagb, hagty, hagti⟩ := hag
          have hwtb := hwf i hiW
          rw [hsW] at hwtb
          obtain ⟨htbid, hcols, hrp, hcl⟩ := (hwtb : WfTable i tb)
          by_cases hbt : tb.builtin = true
          · have hbt' : tb'.builtin = true := by rw [hagb]; exact hbt
            rw [stepSlot_some_eq]
            simp [hbt', hbt]
          · have hbf : tb.builtin = false := by simpa using hbt
            have hbf' : tb'.builtin = false := by rw [hagb]; exact hbf
            have hleaf := leafAt_take_live W hwfI i tb hsW hbf
            rw [stepSlot_some_eq]
            by_cases hz : tb.storage.entities.length = 0
            · have hd : duplicate_data tb tb.storage = none :=
                (duplicate_data_none_iff tb tb.storage).mpr hz
              simp only [hbf', Bool.false_eq_true, if_false, hleaf, hd]
              simp only [hbf, if_false]
              have hempty : tb.storage = emptyData tb.typeInfo.length :=
                storage_empty_of_count_zero tb hcols hrp hcl hz
              rw [hagty, hagti, ← hempty]
              simp
            · have hd : duplicate_data tb tb.storage = some tb.storage :=
                duplicate_data_self_some tb hcols hz
              simp only [hbf', Bool.false_eq_true, if_false, hleaf, hd]
              simp only [hbf, if_false]
              rw [hagty]
              simp
  | none =>
      have hlnone : leafAt (ecs_snapshot_take W).tables i = none :=
        leafAt_take_none W hwfI i (liveNonBuiltin_none W i hsW)
      cases hsw : storeGet w i with
      | none => rfl
      | some tb' =>
          by_cases hiW : i < W.store.length
          · have hag := hagree i hiW
            rw [hsW, hsw] at hag
            exact hag.elim
          · rw [stepSlot_some_eq]
            by_cases hbt' : tb'.builtin = true
            · simp [hbt']
            · have hbf' : tb'.builtin = false := by simpa using hbt'
              simp [hbf', hlnone]

/-- Core of the round trip: restoring a full snapshot of `W` into any world
    `w` that satisfies the store invariant relative to `W` succeeds and
    restores the observable state of `W`. -/
lemma restore_roundtrip_core (W w : World) (hwf : WfTables W)
    (hInv : Inv W w) (hwfw : WfIds w) :
    ∃ w' ev, ecs_snapshot_restore w (ecs_snapshot_take W) = some (w', ev) ∧
      ObservableEq w' W := by
  have hwfI : WfIds W := WfTables_WfIds W hwf
  obtain ⟨hlen, hagree⟩ := hInv
  have hw0ids : ∀ i ∈ List.range (flecs_sparse_last_id w.store + 1),
      IdSlot i (storeGet
        (restoreStart w W.index (ecs_snapshot_take W).last_id) i) := by
    intro i _
    exact IdSlot_of_WfIds _ (WfIds_of_store_eq _ w rfl hwfw) i
  have hoks : ∀ i ∈ List.range (flecs_sparse_last_id w.store + 1),
      SlotOk (ecs_snapshot_take W).tables i
        (storeGet
          (restoreStart w W.index (ecs_snapshot_take W).last_id) i) := by
    intro i _
    have hw0i : storeGet
        (restoreStart w W.index (ecs_snapshot_take W).last_id) i =
        storeGet w i := rfl
    rw [hw0i]
    unfold SlotOk
    cases hleaf : leafAt (ecs_snapshot_take W).tables i with
    | none => trivial
    | some l =>
        cases hsW : storeGet W i with
        | none =>
            rw [leafAt_take_none W hwfI i (liveNonBuiltin_none W i hsW)]
              at hleaf
            exact Option.noConfusion hleaf
        | some tb =>
            by_cases hbt : tb.builtin = true
            · rw [leafAt_take_none W hwfI i
                (liveNonBuiltin_builtin W i tb hsW hbt)] at hleaf
              exact Option.noConfusion hleaf
            · have hbf : tb.builtin = false := by simpa using hbt
              rw [leafAt_take_live W hwfI i tb hsW hbf] at hleaf
              injection hleaf with hleaf'
              have hiW : i < W.store.length := storeGet_some_lt W i tb hsW
              have hag := hagree i hiW
              rw [hsW] at hag
              cases hsw : storeGet w i with
              | none => rw [hsw] at hag; exact hag.elim
              | some tb' =>
                  rw [hsw] at hag
                  refine ⟨tb', rfl, Or.inr ?_⟩
                  rw [← hleaf']
                  have hid' : tb'.id = i := by
                    rw [hag.1]
                    have hwtb := hwf i hiW
                    rw [hsW] at hwtb
                    exact (hwtb : WfTable i tb).1
                  show some i = some tb'.id
                  rw [hid']
  obtain ⟨w1, ev1, hloop, hI1, hL1, hLen1, hSelf, hFrame⟩ :=
    restoreLoopGo_localized (ecs_snapshot_take W).tables
      (List.range (flecs_sparse_last_id w.store + 1))
      (restoreStart w W.index (ecs_snapshot_take W).last_id) []
      (List.nodup_range _) hw0ids hoks
  refine ⟨w1, ev1 ++ onSetPass w1, ?_, hI1, hL1, ?_⟩
  · unfold ecs_snapshot_restore
    simp only [take_entity_index]
    rw [restore_unfiltered_eq]
    rw [hloop]
  · intro i
    by_cases hin : i < flecs_sparse_last_id w.store + 1
    · exact stepSlot_obs W w hwf hwfI hagree i w1
        (by rw [hSelf i (List.mem_range.mpr hin)]; rfl)
    · have hge : w.store.length ≤ i := by
        unfold flecs_sparse_last_id at hin
        omega
      have hf := hFrame i (fun hm => hin (List.mem_range.mp hm))
      unfold obsTableAt
      rw [hf]
      have h1 : storeGet
          (restoreStart w W.index (ecs_snapshot_take W).last_id) i =
          storeGet w i := rfl
      rw [h1, storeGet_none_of_ge w i hge,
        storeGet_none_of_ge W i (le_trans hlen hge)]

/-- The entity-level observables follow from index equality plus tablewise
    observable equality. -/
lemma entityObs_of_obs (w1 W : World) (hidx : w1.index = W.index)
    (hobs : ∀ i, obsTableAt w1 i = obsTableAt W i) (e : EntityId) :
    entityObs w1 e = entityObs W e := by
  have hg : ecs_eis_get w1 e = ecs_eis_get W e := by
    unfold ecs_eis_get eisFind
    rw [hidx]
  have hfun : obsTableAt w1 = obsTableAt W := funext hobs
  unfold entityObs
  rw [hg, hfun]

/-- C1 (amended): for every wellformed world `W` and every sequence of
    intervening mutations — arbitrary creation of tables and entities,
    deletion of entities, component writes, and deletion of tables that
    were not live at capture time — restoring the full snapshot of `W`
    succeeds and returns the observable state of every entity (whether the
    identifier is live, the entity's table membership, and the entity's
    component values) to exactly the state of `W` at capture time.  The
    restriction on table deletion is forced by the counterexample: a
    deleted captured table is recreated under a fresh monotonic table id,
    so the restored entity records still reference the old id and the
    entities' membership and component values are not restored. -/
theorem claim_C1_roundtrip_amended (W : World) (ops : List Op)
    (hwf : WfTables W) (hok : OpsOk W ops) :
    ∃ w' ev, ecs_snapshot_restore (applyOps W ops) (ecs_snapshot_take W) =
      some (w', ev) ∧ ∀ e, entityObs w' e = entityObs W e := by
  obtain ⟨w', ev, heq, hobs⟩ :=
    restore_roundtrip_core W (applyOps W ops) hwf
      (Inv_applyOps W ops hok) (WfIds_applyOps W ops (WfTables_WfIds W hwf))
  exact ⟨w', ev, heq, fun e => entityObs_of_obs w' W hobs.1 hobs.2.2 e⟩

/-- C1 counterexample: `cexW` has one table (id 0, type `[7]`) holding
    entity 1 with component value 10.  Take a full snapshot, delete the
    table together with its entity, restore.  The restore succeeds, yet
    entity 1's observable state differs from capture time: its restored
    index record still references table id 0, which stayed a hole (the
    captured type and data were recreated under the fresh id 1), so the
    entity's table membership and component value — 10 at capture — are
    not restored. -/
theorem claim_C1_counterexample :
    (ecs_snapshot_restore (applyOps cexW [Op.deleteTable 0])
        (ecs_snapshot_take cexW)).isSome = true ∧
    entityObs cexW exE1 = some (some ([7], [10])) ∧
    (ecs_snapshot_restore (applyOps cexW [Op.deleteTable 0])
        (ecs_snapshot_take cexW)).map (fun p => entityObs p.1 exE1) ≠
      some (entityObs cexW exE1) := by
  decide

/-- Witness for C1: with no intervening mutation, restoring a full snapshot
    of the concrete world `exW` succeeds and restores entity 1's observable
    state (liveness, membership and component value). -/
theorem claim_C1_witness :
    WfTables exW ∧ OpsOk exW [] ∧
    (ecs_snapshot_restore (applyOps exW []) (ecs_snapshot_take exW)).isSome
      = true ∧
    (ecs_snapshot_restore (applyOps exW []) (ecs_snapshot_take exW)).map
      (fun p => entityObs p.1 exE1) = some (entityObs exW exE1) := by
  refine ⟨by decide, by decide, ?_, ?_⟩
  · obtain ⟨w', ev, heq, _⟩ :=
      claim_C1_roundtrip_amended exW [] (by decide) (by decide)
    rw [heq]
    rfl
  · obtain ⟨w', ev, heq, hobs⟩ :=
      claim_C1_roundtrip_amended exW [] (by decide) (by decide)
    rw [heq]
    simp [hobs exE1]

end Flecs
